import Mathlib

/-!
Verification development for the lustrs front end.

Part 1 embeds the hand-written lexer of `src/lexer.rs` (`Lexer::lex` and
`Lexer::match_tok`).  The embedding works over `List Char` (the sources the
claims exercise are ASCII, where Rust's byte indexing coincides with character
indexing); machine integers become `Nat`/`Int` with explicit range checks where
the Rust code can overflow (`i64::from_str`).  Rust's `f64` literal test
`x.parse::<f64>().is_ok()` is embedded as the decidable acceptance predicate of
the standard float grammar, and the `RConst` payload keeps the accepted source
text instead of an IEEE value (no claim depends on float arithmetic).  The
imperative scan loop becomes a fuel-indexed recursion: `none` models
non-termination/panics (the Rust code can index out of bounds when a source
ends with an opening quote), `some` the returned `Result`.

Part 2 embeds the parser-combinator engine of `rustre-parser/src/rowan_nom.rs`
generically over a token-kind type, a trivia predicate and a designated error
kind, exactly as the Rust code is generic over a `RowanNomLanguage`.
-/

namespace Lustrs

/-- Modelled from the spec: `src/location.rs` is not under `src/`; the record
shapes are forced by their use in `lexer.rs` and by spec §3 ("span (start/end
line, column, absolute byte offset)").  The Rust field `end` is renamed
`endL` (`end` is a Lean keyword). -/
structure Location where
  line : Nat
  col : Nat
  pos : Nat
deriving DecidableEq, Repr

structure Span where
  file : String
  start : Location
  endL : Location
deriving DecidableEq, Repr

structure Spanned (α : Type) where
  span : Span
  item : α
deriving DecidableEq, Repr

/-- Token payloads, mirroring `TokInfo` in `src/lexer.rs`.  `IConst` carries
the parsed `i64` value as an `Int` (the lexer only produces in-range values);
`RConst` carries the accepted literal text (see the header note). -/
inductive TokInfo where
  | EOF
  | Extern | Unsafe | And | Arrow | Assert | Bar | Bool | CDots
  | CloseBrace | CloseBracket | ClosePar | CloseStaticPar | Colon | Coma
  | Const | Current | Sharp | Div | Dot | Equal | Else | Enum | False
  | Function | Gt | Gte | Hat
  | IConst (v : Int)
  | Ident (s : String)
  | If | Impl | Int | Let | Lt | Lte | Merge | Minus | Mod | Neq | Node
  | Nor | Not | OpenBrace | OpenBracket | OpenPar | OpenStaticPar
  | Operator | Or | Percent | Plus | Power | Pre | FBy
  | RConst (s : String)
  | Real | Returns | Semicolon | Slash | Star | Step | Struct | Tel | Then
  | True | Type | Var | When | With | Xor | Model | Package | Needs
  | Provides | Uses | Is | Body | End | Include
  | Str (s : String)
deriving Repr

/-- Numeric encoding of `TokInfo`, used only to obtain decidable equality
(the derived instance for 79 constructors overflows the elaborator). -/
def TokInfo.code : TokInfo → Nat × ℤ × String
  | .EOF => (0, 0, "")
  | .Extern => (1, 0, "")
  | .Unsafe => (2, 0, "")
  | .And => (3, 0, "")
  | .Arrow => (4, 0, "")
  | .Assert => (5, 0, "")
  | .Bar => (6, 0, "")
  | .Bool => (7, 0, "")
  | .CDots => (8, 0, "")
  | .CloseBrace => (9, 0, "")
  | .CloseBracket => (10, 0, "")
  | .ClosePar => (11, 0, "")
  | .CloseStaticPar => (12, 0, "")
  | .Colon => (13, 0, "")
  | .Coma => (14, 0, "")
  | .Const => (15, 0, "")
  | .Current => (16, 0, "")
  | .Sharp => (17, 0, "")
  | .Div => (18, 0, "")
  | .Dot => (19, 0, "")
  | .Equal => (20, 0, "")
  | .Else => (21, 0, "")
  | .Enum => (22, 0, "")
  | .False => (23, 0, "")
  | .Function => (24, 0, "")
  | .Gt => (25, 0, "")
  | .Gte => (26, 0, "")
  | .Hat => (27, 0, "")
  | .IConst v => (28, v, "")
  | .Ident s => (29, 0, s)
  | .If => (30, 0, "")
  | .Impl => (31, 0, "")
  | .Int => (32, 0, "")
  | .Let => (33, 0, "")
  | .Lt => (34, 0, "")
  | .Lte => (35, 0, "")
  | .Merge => (36, 0, "")
  | .Minus => (37, 0, "")
  | .Mod => (38, 0, "")
  | .Neq => (39, 0, "")
  | .Node => (40, 0, "")
  | .Nor => (41, 0, "")
  | .Not => (42, 0, "")
  | .OpenBrace => (43, 0, "")
  | .OpenBracket => (44, 0, "")
  | .OpenPar => (45, 0, "")
  | .OpenStaticPar => (46, 0, "")
  | .Operator => (47, 0, "")
  | .Or => (48, 0, "")
  | .Percent => (49, 0, "")
  | .Plus => (50, 0, "")
  | .Power => (51, 0, "")
  | .Pre => (52, 0, "")
  | .FBy => (53, 0, "")
  | .RConst s => (54, 0, s)
  | .Real => (55, 0, "")
  | .Returns => (56, 0, "")
  | .Semicolon => (57, 0, "")
  | .Slash => (58, 0, "")
  | .Star => (59, 0, "")
  | .Step => (60, 0, "")
  | .Struct => (61, 0, "")
  | .Tel => (62, 0, "")
  | .Then => (63, 0, "")
  | .True => (64, 0, "")
  | .Type => (65, 0, "")
  | .Var => (66, 0, "")
  | .When => (67, 0, "")
  | .With => (68, 0, "")
  | .Xor => (69, 0, "")
  | .Model => (70, 0, "")
  | .Package => (71, 0, "")
  | .Needs => (72, 0, "")
  | .Provides => (73, 0, "")
  | .Uses => (74, 0, "")
  | .Is => (75, 0, "")
  | .Body => (76, 0, "")
  | .End => (77, 0, "")
  | .Include => (78, 0, "")
  | .Str s => (79, 0, s)

/-- Left inverse of `TokInfo.code`. -/
def TokInfo.decode : Nat × ℤ × String → TokInfo
  | (0, _, _) => .EOF
  | (1, _, _) => .Extern
  | (2, _, _) => .Unsafe
  | (3, _, _) => .And
  | (4, _, _) => .Arrow
  | (5, _, _) => .Assert
  | (6, _, _) => .Bar
  | (7, _, _) => .Bool
  | (8, _, _) => .CDots
  | (9, _, _) => .CloseBrace
  | (10, _, _) => .CloseBracket
  | (11, _, _) => .ClosePar
  | (12, _, _) => .CloseStaticPar
  | (13, _, _) => .Colon
  | (14, _, _) => .Coma
  | (15, _, _) => .Const
  | (16, _, _) => .Current
  | (17, _, _) => .Sharp
  | (18, _, _) => .Div
  | (19, _, _) => .Dot
  | (20, _, _) => .Equal
  | (21, _, _) => .Else
  | (22, _, _) => .Enum
  | (23, _, _) => .False
  | (24, _, _) => .Function
  | (25, _, _) => .Gt
  | (26, _, _) => .Gte
  | (27, _, _) => .Hat
  | (28, v, _) => .IConst v
  | (29, _, s) => .Ident s
  | (30, _, _) => .If
  | (31, _, _) => .Impl
  | (32, _, _) => .Int
  | (33, _, _) => .Let
  | (34, _, _) => .Lt
  | (35, _, _) => .Lte
  | (36, _, _) => .Merge
  | (37, _, _) => .Minus
  | (38, _, _) => .Mod
  | (39, _, _) => .Neq
  | (40, _, _) => .Node
  | (41, _, _) => .Nor
  | (42, _, _) => .Not
  | (43, _, _) => .OpenBrace
  | (44, _, _) => .OpenBracket
  | (45, _, _) => .OpenPar
  | (46, _, _) => .OpenStaticPar
  | (47, _, _) => .Operator
  | (48, _, _) => .Or
  | (49, _, _) => .Percent
  | (50, _, _) => .Plus
  | (51, _, _) => .Power
  | (52, _, _) => .Pre
  | (53, _, _) => .FBy
  | (54, _, s) => .RConst s
  | (55, _, _) => .Real
  | (56, _, _) => .Returns
  | (57, _, _) => .Semicolon
  | (58, _, _) => .Slash
  | (59, _, _) => .Star
  | (60, _, _) => .Step
  | (61, _, _) => .Struct
  | (62, _, _) => .Tel
  | (63, _, _) => .Then
  | (64, _, _) => .True
  | (65, _, _) => .Type
  | (66, _, _) => .Var
  | (67, _, _) => .When
  | (68, _, _) => .With
  | (69, _, _) => .Xor
  | (70, _, _) => .Model
  | (71, _, _) => .Package
  | (72, _, _) => .Needs
  | (73, _, _) => .Provides
  | (74, _, _) => .Uses
  | (75, _, _) => .Is
  | (76, _, _) => .Body
  | (77, _, _) => .End
  | (78, _, _) => .Include
  | (79, _, s) => .Str s
  | _ => .EOF

def TokInfo.decode_code (a : TokInfo) : TokInfo.decode (TokInfo.code a) = a := by
  cases a <;> rfl

instance : DecidableEq TokInfo := fun a b =>
  decidable_of_iff (TokInfo.code a = TokInfo.code b)
    ⟨fun h => by
        have := congrArg TokInfo.decode h
        rwa [TokInfo.decode_code, TokInfo.decode_code] at this,
      fun h => h ▸ rfl⟩

abbrev Tok := Spanned TokInfo

/-- The lexer's explicit scan state (`enum Grammar` in `lexer.rs`). -/
inductive Grammar where
  | main
  | str
  | inlineComment
  | comment (close : Char)
deriving DecidableEq, Repr

/-- `enum Error` of `lexer.rs`. -/
inductive LexError where
  | UnclosedStr
  | UnclosedComment
deriving DecidableEq, Repr

/-- `&src[a..b]` as a character list. -/
def slice (src : List Char) (a b : Nat) : List Char :=
  (src.drop a).take (b - a)

/-- Embeds Rust's `str::parse::<i64>`: optional sign, a nonempty run of ASCII
digits, value within the `i64` range (outside it the Rust parse fails with an
overflow error, which the lexer treats as "not an integer literal"). -/
def parseI64 (s : List Char) : Option Int :=
  let (neg, ds) :=
    match s with
    | '-' :: r => (true, r)
    | '+' :: r => (false, r)
    | r => (false, r)
  if ds = [] then none
  else if ds.all Char.isDigit then
    let n : Nat := ds.foldl (fun a c => a * 10 + (c.toNat - 48)) 0
    let v : Int := if neg then -(n : Int) else (n : Int)
    if -(2 ^ 63) ≤ v ∧ v ≤ 2 ^ 63 - 1 then some v else none
  else none

/-- Sign stripping shared by the float grammar below. -/
def dropSign (s : List Char) : List Char :=
  match s with
  | '+' :: r => r
  | '-' :: r => r
  | r => r

/-- Mantissa of Rust's float grammar: `Digit+ ('.' Digit*)? | '.' Digit+`. -/
def mantissaOk (m : List Char) : Bool :=
  let pre := m.takeWhile Char.isDigit
  match m.drop pre.length with
  | [] => !pre.isEmpty
  | '.' :: frac => frac.all Char.isDigit && (!pre.isEmpty || !frac.isEmpty)
  | _ => false

/-- Exponent of Rust's float grammar: `('e'|'E') Sign? Digit+` (the marker is
stripped by the caller). -/
def exponentOk (x : List Char) : Bool :=
  let x2 := dropSign x
  !x2.isEmpty && x2.all Char.isDigit

/-- Embeds the acceptance of Rust's `str::parse::<f64>`: optional sign, then
`inf`/`infinity`/`nan` (case-insensitive) or a decimal mantissa with optional
exponent. -/
def f64Accepts (s : List Char) : Bool :=
  let body := dropSign s
  let lowered := body.map Char.toLower
  if body.isEmpty then false
  else if lowered = ['i', 'n', 'f'] then true
  else if lowered = ['i', 'n', 'f', 'i', 'n', 'i', 't', 'y'] then true
  else if lowered = ['n', 'a', 'n'] then true
  else
    let mant := body.takeWhile (fun c => c ≠ 'e' ∧ c ≠ 'E')
    match body.drop mant.length with
    | [] => mantissaOk mant
    | _ :: ex => mantissaOk mant && exponentOk ex

set_option maxHeartbeats 1600000 in
/-- The fixed keyword/operator table of `Lexer::match_tok`.  The Rust code is
a `match` on exact string patterns; the patterns are pairwise distinct, so a
lookup list is an equivalent rendering. -/
def keywordTable : List (List Char × TokInfo) :=
  [ ("extern".toList, .Extern), ("unsafe".toList, .Unsafe),
    ("and".toList, .And), ("assert".toList, .Assert),
    ("bool".toList, .Bool), ("const".toList, .Const),
    ("current".toList, .Current), ("div".toList, .Div),
    ("else".toList, .Else), ("enum".toList, .Enum),
    ("function".toList, .Function), ("false".toList, .False),
    ("if".toList, .If), ("int".toList, .Int),
    ("let".toList, .Let), ("mod".toList, .Mod),
    ("node".toList, .Node), ("not".toList, .Not),
    ("operator".toList, .Operator), ("or".toList, .Or),
    ("nor".toList, .Nor), ("fby".toList, .FBy),
    ("pre".toList, .Pre), ("real".toList, .Real),
    ("returns".toList, .Returns), ("step".toList, .Step),
    ("struct".toList, .Struct), ("tel".toList, .Tel),
    ("type".toList, .Type), ("then".toList, .Then),
    ("true".toList, .True), ("var".toList, .Var),
    ("when".toList, .When), ("with".toList, .With),
    ("xor".toList, .Xor), ("model".toList, .Model),
    ("package".toList, .Package), ("needs".toList, .Needs),
    ("provides".toList, .Provides), ("uses".toList, .Uses),
    ("is".toList, .Is), ("body".toList, .Body),
    ("end".toList, .End), ("include".toList, .Include),
    ("merge".toList, .Merge),
    ("->".toList, .Arrow), ("=>".toList, .Impl),
    ("<=".toList, .Lte), ("<>".toList, .Neq),
    (">=".toList, .Gte), ("..".toList, .CDots),
    ("**".toList, .Power), ("<<".toList, .OpenStaticPar),
    (">>".toList, .CloseStaticPar),
    ("+".toList, .Plus), ("^".toList, .Hat), ("#".toList, .Sharp),
    ("-".toList, .Minus), ("/".toList, .Slash), ("%".toList, .Percent),
    ("*".toList, .Star), ("|".toList, .Bar), ("=".toList, .Equal),
    (".".toList, .Dot), (",".toList, .Coma), (";".toList, .Semicolon),
    (":".toList, .Colon), ("(".toList, .OpenPar), (")".toList, .ClosePar),
    ("\x7b".toList, .OpenBrace), ("\x7d".toList, .CloseBrace),
    ("[".toList, .OpenBracket), ("]".toList, .CloseBracket),
    ("<".toList, .Lt), (">".toList, .Gt) ]

def lookupTable (s : List Char) : Option TokInfo :=
  (keywordTable.find? (fun e => e.1 = s)).map (·.2)

/-- `Lexer::token`: builds the span from the already-advanced position and
column (`start = (line, col, pos)`, `end = (line, col+len, pos+len)` after
undoing the `+ len`). -/
def mkTok (file : String) (line col pos len : Nat) (info : TokInfo) : Tok :=
  { span :=
      { file := file
        start := { line := line, col := col + len - len, pos := pos + len - len }
        endL := { line := line, col := col + len, pos := pos + len } }
    item := info }

/-- `Lexer::match_tok`: fixed table first, then the numeric guards (`i64`
preferred over `f64`), then the all-alphanumeric identifier guard. -/
def matchTok (file : String) (line col pos : Nat) (s : List Char) :
    Option Tok :=
  let len := s.length
  match lookupTable s with
  | some info => some (mkTok file line col pos len info)
  | none =>
    match parseI64 s with
    | some v => some (mkTok file line col pos len (.IConst v))
    | none =>
      if f64Accepts s then some (mkTok file line col pos len (.RConst (String.mk s)))
      else if s.all Char.isAlphanum then
        some (mkTok file line col pos len (.Ident (String.mk s)))
      else none

/-- The mutable locals of `Lexer::lex`'s main loop (`pos`, `end`, `grammar`,
`line`, `col`); the Rust local `end` is renamed `stop`. -/
structure LexSt where
  pos : Nat
  stop : Nat
  gram : Grammar
  line : Nat
  col : Nat
deriving DecidableEq, Repr

/-- The inner scan of the `Grammar::Str` state: advance `str_end` while
`str_end + 1 < total` and the current character is not `"`, tracking added
lines/columns.  Returns `(str_end, added_lines, added_cols)`.  Called with
`fuel = total`, which bounds the number of steps. -/
def strScan (src : List Char) (total : Nat) :
    Nat → Nat → Nat → Nat → Nat × Nat × Nat
  | 0, e, al, ac => (e, al, ac)
  | f + 1, e, al, ac =>
    if e + 1 < total then
      match src.get? e with
      | some '"' => (e, al, ac)
      | some '\n' => strScan src total f (e + 1) (al + 1) 0
      | some _ => strScan src total f (e + 1) al (ac + 1)
      | none => (e, al, ac)
    else (e, al, ac)

/-- The inner scan of the `Grammar::Comment` state: advance while
`comm_end + 1 < total` and the next two characters are not `*` + closer,
updating `line`/`col` in place.  Returns `(comm_end, line, col)`. -/
def commScan (src : List Char) (total : Nat) (close : Char) :
    Nat → Nat → Nat → Nat → Nat × Nat × Nat
  | 0, e, ln, cl => (e, ln, cl)
  | f + 1, e, ln, cl =>
    if e + 1 < total then
      if slice src e (e + 2) = ['*', close] then (e, ln, cl)
      else
        match src.get? e with
        | some '\n' => commScan src total close f (e + 1) (ln + 1) 0
        | _ => commScan src total close f (e + 1) ln (cl + 1)
    else (e, ln, cl)

/-- The inner scan of the `Grammar::InlineComment` state: advance while
`comm_end + 1 < total` and the current character is not a newline.  Returns
`(comm_end, line, col)`. -/
def inlineScan (src : List Char) (total : Nat) :
    Nat → Nat → Nat → Nat → Nat × Nat × Nat
  | 0, e, ln, cl => (e, ln, cl)
  | f + 1, e, ln, cl =>
    if e + 1 < total ∧ src.get? e ≠ some '\n' then
      inlineScan src total f (e + 1) ln (cl + 1)
    else (e, ln, cl)

/-- One iteration of the `while pos < total_len` loop body (the `match
grammar` part, before the common position/column bookkeeping).  `none` models
the Rust panic: when a source ends in an opening quote the Rust code indexes
`src[str_end..str_end+1]` out of bounds. -/
def lexArm (file : String) (src : List Char) (total : Nat) (st : LexSt)
    (acc : List Tok) : Option (LexSt × List Tok) :=
  match st.gram with
  | .main =>
    let w := slice src st.pos st.stop
    if w = ['"'] then some ({ st with gram := .str }, acc)
    else if w = ['-', '-'] then some ({ st with gram := .inlineComment }, acc)
    else if w = ['/', '*'] then some ({ st with gram := .comment '/' }, acc)
    else if w = ['(', '*'] then some ({ st with gram := .comment ')' }, acc)
    else
      match matchTok file st.line st.col st.pos w with
      | some tok => some ({ st with pos := st.stop, stop := total }, acc ++ [tok])
      | none => some ({ st with stop := st.stop - 1 }, acc)
  | .str =>
    let r := strScan src total total (st.pos + 1) 0 0
    let se := r.1
    let al := r.2.1
    let ac := r.2.2
    let tok : Tok :=
      { span :=
          { file := file
            start := { line := st.line, col := st.col, pos := st.pos + 1 }
            endL := { line := st.line + al, col := st.col + ac, pos := se } }
        item := .Str (String.mk (slice src (st.pos + 1) se)) }
    let st2 := { st with pos := se + 1, stop := total,
                         line := st.line + al, col := st.col + ac }
    if se + 1 < total then some ({ st2 with gram := .main }, acc ++ [tok])
    else
      match src.get? se with
      | some c =>
        if c = '"' then some ({ st2 with gram := .main }, acc ++ [tok])
        else some (st2, acc ++ [tok])
      | none => none
  | .comment close =>
    let r := commScan src total close total (st.pos + 1) st.line st.col
    let pos2 := r.1 + 1
    let gram2 := if pos2 < total then Grammar.main else st.gram
    some ({ st with pos := pos2, line := r.2.1, col := r.2.2, gram := gram2 }, acc)
  | .inlineComment =>
    let r := inlineScan src total total (st.pos + 1) st.line st.col
    some ({ st with pos := r.1, line := r.2.1, col := r.2.2, gram := .main }, acc)

/-- First half of the loop-bottom bookkeeping: the conditional line/column
update (`if pos + 1 < total_len { match src[pos..pos+1] ... }`). -/
def lexCol (src : List Char) (total : Nat) (st : LexSt) : LexSt :=
  if st.pos + 1 < total then
    match src.get? st.pos with
    | some '\n' => { st with line := st.line + 1, col := 0 }
    | _ => { st with col := st.col + 1 }
  else st

/-- The common bookkeeping at the bottom of the loop: the line/column update
above, then the skip-and-reset step
(`if pos >= end { pos += 1; end = total_len; }`). -/
def lexBottom (src : List Char) (total : Nat) (st : LexSt) : LexSt :=
  let st1 := lexCol src total st
  if st1.pos ≥ st1.stop then { st1 with pos := st1.pos + 1, stop := total }
  else st1

/-- The end-of-file sentinel pushed after the loop: an empty span at the
current scan position. -/
def eofTok (file : String) (st : LexSt) : Tok :=
  { span :=
      { file := file
        start := { line := st.line, col := st.col, pos := st.pos }
        endL := { line := st.line, col := st.col, pos := st.pos } }
    item := .EOF }

/-- The `while pos < total_len` loop of `Lexer::lex` plus the final `match
grammar`, as a fuel-indexed recursion (`none` = fuel exhausted or panic). -/
def lexLoop (file : String) (src : List Char) (total : Nat) :
    Nat → LexSt → List Tok → Option (Except LexError (List Tok))
  | 0, _, _ => none
  | fuel + 1, st, acc =>
    if st.pos < total then
      match lexArm file src total st acc with
      | some (st2, acc2) => lexLoop file src total fuel (lexBottom src total st2) acc2
      | none => none
    else
      match st.gram with
      | .main => some (.ok (acc ++ [eofTok file st]))
      | .inlineComment => some (.ok (acc ++ [eofTok file st]))
      | .comment _ => some (.error .UnclosedComment)
      | .str => some (.error .UnclosedStr)

/-- A fuel budget that dominates the loop's iteration count: the scan position
takes at most `n + 2` values and the window shrinks at most `n + 1` times per
position. -/
def lexFuel (n : Nat) : Nat :=
  (n + 2) * (n + 3) + 4

/-- `Lexer::lex` for a whole source string. -/
def lex (file : String) (s : String) : Option (Except LexError (List Tok)) :=
  lexLoop file s.toList s.length (lexFuel s.length)
    { pos := 0, stop := s.length, gram := .main, line := 1, col := 0 } []

/-- The kinds (payloads dropped) of a lex result, for concise statements. -/
def lexItems (file : String) (s : String) :
    Option (Except LexError (List TokInfo)) :=
  (lex file s).map (Except.map (List.map Spanned.item))

/-- A token's lexeme read back from the source through its byte span. -/
def tokLexeme (s : String) (t : Tok) : List Char :=
  slice s.toList t.span.start.pos t.span.endL.pos

/-- Concatenation of all token lexemes of a lex result. -/
def lexConcat (file : String) (s : String) : Option (Except LexError String) :=
  (lex file s).map (Except.map (fun ts => String.mk (ts.flatMap (tokLexeme s))))

end Lustrs

namespace RowanNom

/-!
Embedding of `rustre-parser/src/rowan_nom.rs`.  The Rust module is generic
over a `RowanNomLanguage` (a token-kind type with decidable equality, an
`is_trivia` predicate and a designated error kind); the embedding takes the
kind type `K`, the predicate `isTriv` and the error kind `errK` as explicit
parameters.  Rowan green trees (`GreenNode`/`GreenToken`/`NodeOrToken`)
become the inductive `Green`; `Language::kind_to_raw` is a kind-preserving
injection, modelled as the identity on `K`.  `nom::IResult` (with its
`Err::Error` / `Err::Failure` levels; `Err::Incomplete` is never produced by
complete-input parsing) becomes `PResult`.  Errors on the `Err` path carry no
cursor, which models the nom convention that the caller keeps its own
(cloned) input on failure — the caller-visible cursor is unchanged.
-/

/-- A lexed token as the engine sees it: kind plus source text
(`RichToken<'src, Lang>`). -/
abbrev RichTok (K : Type) := K × String

/-- `struct Input`: consumed byte count, buffered trivia run, its total text
length, and the remaining tokens. -/
structure Input (K : Type) where
  srcPos : Nat
  triviaToks : List (RichTok K)
  triviaLen : Nat
  toks : List (RichTok K)
deriving DecidableEq, Repr

/-- `Input::advance_trivia`: split the remaining tokens at the first
non-trivia token (`split_slice_predicate`) and buffer the trivia prefix.  The
previous buffer is overwritten; every caller has already emptied it. -/
def Input.advanceTrivia (isTriv : K → Bool) (i : Input K) : Input K :=
  let tr := i.toks.takeWhile (fun t => isTriv t.1)
  { srcPos := i.srcPos
    triviaToks := tr
    triviaLen := (tr.map (fun t => t.2.length)).sum
    toks := i.toks.dropWhile (fun t => isTriv t.1) }

/-- `impl From<&[RichToken]> for Input`. -/
def Input.ofTokens (isTriv : K → Bool) (toks : List (RichTok K)) : Input K :=
  Input.advanceTrivia isTriv
    { srcPos := 0, triviaToks := [], triviaLen := 0, toks := toks }

/-- `nom::InputLength for Input`. -/
def Input.len (i : Input K) : Nat :=
  i.triviaToks.length + i.toks.length

/-- The tokens still ahead of the cursor, buffered trivia first. -/
def Input.remaining (i : Input K) : List (RichTok K) :=
  i.triviaToks ++ i.toks

/-- Rowan green trees: interior nodes carry a kind, leaves are tokens with
their text (`NodeOrToken<GreenNode, GreenToken>`). -/
inductive Green (K : Type) where
  | tok (k : K) (s : String)
  | node (k : K) (cs : List (Green K))

/-- `struct Children`: accumulated errors plus accumulated tree fragments. -/
structure Children (K E : Type) where
  errors : List E
  inner : List (Green K)

/-- `Children::empty`. -/
def Children.empty : Children K E := { errors := [], inner := [] }

/-- `Children::from_tokens`. -/
def Children.fromTokens (l : List (RichTok K)) : Children K E :=
  { errors := [], inner := l.map (fun t => Green.tok t.1 t.2) }

/-- `Children::from_err`: one recorded error and one childless node tagged
with the designated error kind. -/
def Children.fromErr (errK : K) (e : E) : Children K E :=
  { errors := [e], inner := [Green.node errK []] }

/-- `Children::add`: concatenation of both lists. -/
def Children.add (a b : Children K E) : Children K E :=
  { errors := a.errors ++ b.errors, inner := a.inner ++ b.inner }

/-- `Children::into_node`. -/
def Children.intoNode (k : K) (c : Children K E) : Children K E :=
  { errors := c.errors, inner := [Green.node k c.inner] }

/-- `nom::IResult`: success with the advanced cursor and accumulator, or a
recoverable `Err::Error`, or an unrecoverable `Err::Failure`. -/
inductive PResult (K E IE : Type) where
  | ok (i : Input K) (c : Children K E)
  | error (e : IE)
  | failure (e : IE)

/-- The engine's parser shape `(Input) -> IResult<Input, Children<E>, IE>`. -/
def ParserFn (K E IE : Type) := Input K → PResult K E IE

/-- `trait RowanNomError` as found in `rowan_nom.rs`: only the plain-message
constructor exists (the location-carrying constructors are a `TODO` in the
source). -/
class RowanNomError (IE : Type) where
  fromMessage : String → IE

/-- The `t(token)` combinator: match the next significant token by kind, emit
the buffered trivia followed by the token, and advance (`Input::next`,
inlined here under its nonempty-input guard). -/
def t [DecidableEq K] [RowanNomError IE] (isTriv : K → Bool) (k : K) :
    ParserFn K E IE := fun input =>
  match input.toks with
  | (ck, cs) :: rest =>
    if ck = k then
      .ok (Input.advanceTrivia isTriv
            { srcPos := input.srcPos + input.triviaLen + cs.length
              triviaToks := [], triviaLen := 0, toks := rest })
          (Children.fromTokens (input.triviaToks ++ [(ck, cs)]))
    else .error (RowanNomError.fromMessage "unexpected token")
  | [] => .error (RowanNomError.fromMessage "unexpected eof")

/-- `fallible_with(parser, convert)`: pass successes and `Failure`s through;
turn a recoverable `Error` into a success at the original cursor whose
accumulator is `Children::from_err` of the converted error. -/
def fallibleWith (errK : K) (p : ParserFn K E IE) (conv : IE → E) :
    ParserFn K E IE := fun input =>
  match p input with
  | .ok i c => .ok i c
  | .error e => .ok input (Children.fromErr errK (conv e))
  | .failure e => .failure e

/-- `node(kind, parser)`: wrap a successful accumulator into one node. -/
def node (k : K) (p : ParserFn K E IE) : ParserFn K E IE := fun input =>
  match p input with
  | .ok i c => .ok i (c.intoNode k)
  | .error e => .error e
  | .failure e => .failure e

/-- Result type of `root_node`: a finished tree plus its error list. -/
inductive RootResult (K E IE : Type) where
  | ok (i : Input K) (root : Green K) (errors : List E)
  | error (e : IE)
  | failure (e : IE)

/-- `root_node(kind, parser)`: finalize the accumulator into a freestanding
tree (the `SyntaxNode::new_root` view adds no structure). -/
def rootNode (k : K) (p : ParserFn K E IE) : Input K → RootResult K E IE :=
  fun input =>
  match p input with
  | .ok i c => .ok i (Green.node k c.inner) c.errors
  | .error e => .error e
  | .failure e => .failure e

/-- `join` over the `Joignable` tuples, rendered over a list: run each step
on the cursor produced by the previous one, propagate the first failing
step's result (`?`), and concatenate the accumulators. -/
def join : List (ParserFn K E IE) → ParserFn K E IE
  | [], input => .ok input Children.empty
  | p :: rest, input =>
    match p input with
    | .ok i1 c1 =>
      match join rest i1 with
      | .ok i2 c2 => .ok i2 (c1.add c2)
      | .error e => .error e
      | .failure e => .failure e
    | .error e => .error e
    | .failure e => .failure e

/-- The `while let Ok(..)` loop of `many0`, fuel-indexed.  Under the
documented progress requirement (spec §4.2) the fuel `Input::len + 1` is
never exhausted; without progress the Rust loop would not terminate. -/
def many0Loop (p : ParserFn K E E) :
    Nat → Input K → Children K E → Input K × Children K E
  | 0, i, acc => (i, acc)
  | fuel + 1, i, acc =>
    match p i with
    | .ok i2 c => many0Loop p fuel i2 (acc.add c)
    | .error _ => (i, acc)
    | .failure _ => (i, acc)

/-- `many0(parser)`: zero-or-more repetition; any `Err` from the inner parser
(first call included) stops the loop and the combinator returns `Ok`. -/
def many0 (p : ParserFn K E E) : ParserFn K E IE := fun input =>
  match p input with
  | .ok i c =>
    let r := many0Loop p (i.len + 1) i c
    .ok r.1 r.2
  | .error _ => .ok input Children.empty
  | .failure _ => .ok input Children.empty

/-- Closed syntax of grammars built from the engine's combinators, used to
quantify over "every composition of the engine's combinators". -/
inductive PExp (K : Type) where
  | tok (k : K)
  | seq (p q : PExp K)
  | rep (p : PExp K)
  | recov (p : PExp K)
  | wrap (k : K) (p : PExp K)

/-- Denotation of a grammar expression, instantiating the engine at a single
error type (`IE = E`, with `conv` the `convert_error` used by `recoverable`). -/
def denote [DecidableEq K] [RowanNomError E] (isTriv : K → Bool) (errK : K)
    (conv : E → E) : PExp K → ParserFn K E E
  | .tok k => t isTriv k
  | .seq p q => join [denote isTriv errK conv p, denote isTriv errK conv q]
  | .rep p => many0 (denote isTriv errK conv p)
  | .recov p => fallibleWith errK (denote isTriv errK conv p) conv
  | .wrap k p => node k (denote isTriv errK conv p)

/-- Leaf tokens of a green tree, left to right. -/
def Green.leaves : Green K → List (RichTok K)
  | .tok k s => [(k, s)]
  | .node _ cs => leavesList cs
where
  leavesList : List (Green K) → List (RichTok K)
    | [] => []
    | g :: gs => g.leaves ++ leavesList gs

/-- Leaf tokens of an accumulator. -/
def Children.leaves (c : Children K E) : List (RichTok K) :=
  Green.leaves.leavesList c.inner

/-- Concatenated text of a token list. -/
def toksText (l : List (RichTok K)) : String :=
  String.join (l.map (fun t => t.2))

/-- Concatenated leaf text of a finished tree. -/
def Green.text (g : Green K) : String :=
  toksText g.leaves

end RowanNom

namespace RowanNom

/-!
Specification-level notions used by the theorems: token conservation,
progress, the run/sequence/failure relations, and cursor well-formedness.
Also a small concrete language instance (`TK`) for witnesses, plus the front
end's concrete error type from `rustre-parser/src/lib.rs`.
-/

/-- The parser result is a failure of either nom level. -/
def stops (p : ParserFn K E IE) (i : Input K) : Prop :=
  ∀ i2 c, p i ≠ PResult.ok i2 c

/-- `Runs p i k i2 acc`: from cursor `i`, parser `p` succeeds exactly `k`
consecutive times, accumulating `acc` in order, reaching cursor `i2` where it
fails ("exactly k leading matches"). -/
inductive Runs (p : ParserFn K E E) : Input K → Nat → Input K → Children K E → Prop where
  | stop (i : Input K) : stops p i → Runs p i 0 i Children.empty
  | step (i i2 i3 : Input K) (c acc : Children K E) (k : Nat) :
      p i = .ok i2 c → Runs p i2 k i3 acc → Runs p i (k + 1) i3 (c.add acc)

/-- Every success of `p` consumes at least one token (the progress
requirement spec §4.2 imposes on `repeat0`'s argument). -/
def Progress (p : ParserFn K E IE) : Prop :=
  ∀ i i2 c, p i = PResult.ok i2 c → i2.len < i.len

/-- `p` never loses, duplicates, or reorders tokens: on success, the leaves
it emitted followed by what is still ahead of the new cursor are exactly what
was ahead of the old cursor. -/
def Conserves (p : ParserFn K E IE) : Prop :=
  ∀ i i2 c, p i = PResult.ok i2 c → c.leaves ++ i2.remaining = i.remaining

/-- `SeqOk ps i i2 cs`: each parser of `ps`, run left to right on the cursor
produced by its predecessor, succeeds, producing the accumulators `cs`. -/
inductive SeqOk : List (ParserFn K E IE) → Input K → Input K → List (Children K E) → Prop where
  | nil (i : Input K) : SeqOk [] i i []
  | cons (p : ParserFn K E IE) (ps : List (ParserFn K E IE)) (i i2 i3 : Input K)
      (c : Children K E) (cs : List (Children K E)) :
      p i = .ok i2 c → SeqOk ps i2 i3 cs → SeqOk (p :: ps) i i3 (c :: cs)

/-- `FailsWith ps i r`: running `ps` sequentially from `i`, some step is the
first to fail, with result `r` (an `error` or `failure`). -/
inductive FailsWith : List (ParserFn K E IE) → Input K → PResult K E IE → Prop where
  | hereE (p : ParserFn K E IE) (ps : List (ParserFn K E IE)) (i : Input K) (e : IE) :
      p i = .error e → FailsWith (p :: ps) i (.error e)
  | hereF (p : ParserFn K E IE) (ps : List (ParserFn K E IE)) (i : Input K) (e : IE) :
      p i = .failure e → FailsWith (p :: ps) i (.failure e)
  | later (p : ParserFn K E IE) (ps : List (ParserFn K E IE)) (i i2 : Input K)
      (c : Children K E) (r : PResult K E IE) :
      p i = .ok i2 c → FailsWith ps i2 r → FailsWith (p :: ps) i r

/-- Ordered concatenation of step accumulators, exactly as `join` builds it. -/
def concatChildren (cs : List (Children K E)) : Children K E :=
  cs.foldr Children.add Children.empty

/-- A thrown (`Err`-path) engine error is one of the two plain messages built
in `t`. -/
def PlainErr [RowanNomError E] : PResult K E E → Prop
  | .ok _ _ => True
  | .error e =>
      e = RowanNomError.fromMessage "unexpected token" ∨
      e = RowanNomError.fromMessage "unexpected eof"
  | .failure e =>
      e = RowanNomError.fromMessage "unexpected token" ∨
      e = RowanNomError.fromMessage "unexpected eof"

/-- Well-formed cursor: the buffered run is all trivia and the head of the
remaining tokens (if any) is significant — the invariant `advance_trivia`
establishes and every engine-built cursor satisfies. -/
def WF (isTriv : K → Bool) (i : Input K) : Prop :=
  (∀ x ∈ i.triviaToks, isTriv x.1 = true) ∧
  (match i.toks with
   | [] => True
   | x :: _ => isTriv x.1 = false)

/-- The kind of the next significant (non-trivia) token ahead of the cursor. -/
def nextSig (isTriv : K → Bool) (i : Input K) : Option K :=
  ((i.remaining.dropWhile (fun x => isTriv x.1)).head?).map Prod.fst

/-- A five-kind concrete language used for witnesses: two significant kinds,
a comment-like and a whitespace-like trivia kind, and the error kind. -/
inductive TK where
  | a
  | b
  | cmt
  | ws
  | err
deriving DecidableEq, Repr

/-- Trivia predicate of the concrete language. -/
def tkTriv : TK → Bool
  | .cmt => true
  | .ws => true
  | _ => false

/-- A bare string error type for witnesses. -/
instance : RowanNomError String := ⟨fun m => m⟩

/-- `struct Error` of `rustre-parser/src/lib.rs`: byte span, message,
optional boxed cause. -/
inductive FrontError where
  | mk (span : Nat × Nat) (msg : String) (cause : Option FrontError)

/-- Span accessor of `FrontError`. -/
def FrontError.span : FrontError → Nat × Nat
  | .mk s _ _ => s

/-- Message accessor of `FrontError`. -/
def FrontError.msg : FrontError → String
  | .mk _ m _ => m

/-- Equality on `FrontError` is decidable (derivation through the nested
`Option` is done by hand). -/
def FrontError.beq : FrontError → FrontError → Bool
  | .mk s1 m1 none, .mk s2 m2 none => s1 = s2 ∧ m1 = m2
  | .mk s1 m1 (some c1), .mk s2 m2 (some c2) => s1 = s2 ∧ m1 = m2 ∧ FrontError.beq c1 c2
  | _, _ => false

def FrontError.beq_iff : ∀ a b : FrontError, FrontError.beq a b = true ↔ a = b
  | .mk s1 m1 none, .mk s2 m2 none => by
      simp [FrontError.beq]
  | .mk s1 m1 none, .mk s2 m2 (some c2) => by
      simp [FrontError.beq]
  | .mk s1 m1 (some c1), .mk s2 m2 none => by
      simp [FrontError.beq]
  | .mk s1 m1 (some c1), .mk s2 m2 (some c2) => by
      simp [FrontError.beq, FrontError.beq_iff c1 c2]

instance : DecidableEq FrontError := fun a b =>
  decidable_of_iff (FrontError.beq a b = true) (FrontError.beq_iff a b)

/-- `impl RowanNomError for Error` in `lib.rs`: `from_message` yields the
empty span `0..0` and no cause.  (The same `impl` block also offers
`from_unexpected_eof` and `from_unexpected_token` constructors carrying
position, kinds and span, but the engine trait in `rowan_nom.rs` only has
`from_message`, so the engine never invokes them.) -/
instance : RowanNomError FrontError := ⟨fun m => .mk (0, 0) m none⟩

end RowanNom

namespace RowanNom

/-! Helper lemmas about the engine. -/

theorem leavesList_append (x y : List (Green K)) :
    Green.leaves.leavesList (x ++ y) =
      Green.leaves.leavesList x ++ Green.leaves.leavesList y := by
  induction x with
  | nil => simp [Green.leaves.leavesList]
  | cons g gs ih => simp [Green.leaves.leavesList, ih]

theorem Children.leaves_add (a b : Children K E) :
    (a.add b).leaves = a.leaves ++ b.leaves := by
  simp [Children.leaves, Children.add, leavesList_append]

theorem Children.leaves_empty : (Children.empty : Children K E).leaves = [] := by
  simp [Children.leaves, Children.empty, Green.leaves.leavesList]

theorem Children.leaves_fromTokens (l : List (RichTok K)) :
    (Children.fromTokens l : Children K E).leaves = l := by
  induction l with
  | nil => simp [Children.fromTokens, Children.leaves, Green.leaves.leavesList]
  | cons x xs ih =>
    simp [Children.fromTokens, Children.leaves, Green.leaves.leavesList,
      Green.leaves] at ih ⊢
    exact ih

theorem Children.leaves_fromErr (errK : K) (e : E) :
    (Children.fromErr errK e : Children K E).leaves = [] := by
  simp [Children.fromErr, Children.leaves, Green.leaves.leavesList, Green.leaves]

theorem Children.leaves_intoNode (k : K) (c : Children K E) :
    (c.intoNode k).leaves = c.leaves := by
  simp [Children.intoNode, Children.leaves, Green.leaves.leavesList, Green.leaves]

theorem Children.add_empty (a : Children K E) : a.add Children.empty = a := by
  cases a; simp [Children.add, Children.empty]

theorem Children.add_assoc (a b c : Children K E) :
    (a.add b).add c = a.add (b.add c) := by
  cases a; cases b; cases c; simp [Children.add]

theorem Input.advanceTrivia_app (isTriv : K → Bool) (i : Input K) :
    (Input.advanceTrivia isTriv i).triviaToks ++
      (Input.advanceTrivia isTriv i).toks = i.toks := by
  simp [Input.advanceTrivia]

theorem Input.remaining_advanceTrivia (isTriv : K → Bool) (i : Input K) :
    (Input.advanceTrivia isTriv i).remaining = i.toks :=
  Input.advanceTrivia_app isTriv i

theorem Input.remaining_ofTokens (isTriv : K → Bool) (toks : List (RichTok K)) :
    (Input.ofTokens isTriv toks).remaining = toks :=
  Input.remaining_advanceTrivia isTriv _

theorem Input.len_advanceTrivia (isTriv : K → Bool) (i : Input K) :
    (Input.advanceTrivia isTriv i).len = i.toks.length := by
  have h : ((i.toks.takeWhile (fun t => isTriv t.1)).length +
      (i.toks.dropWhile (fun t => isTriv t.1)).length) = i.toks.length := by
    rw [← List.length_append, List.takeWhile_append_dropWhile]
  simpa [Input.advanceTrivia, Input.len] using h

theorem t_conserves [DecidableEq K] [RowanNomError IE] (isTriv : K → Bool) (k : K) :
    Conserves (t isTriv k : ParserFn K E IE) := by
  intro i i2 c h
  unfold t at h
  cases htoks : i.toks with
  | nil => rw [htoks] at h; simp at h
  | cons hd rest =>
    obtain ⟨ck, cs⟩ := hd
    rw [htoks] at h
    by_cases hk : ck = k
    · simp only [hk, if_pos rfl] at h
      cases h
      rw [Children.leaves_fromTokens, Input.remaining_advanceTrivia]
      simp [Input.remaining, htoks, hk]
    · simp only [if_neg hk] at h
      simp at h

theorem t_progress [DecidableEq K] [RowanNomError IE] (isTriv : K → Bool) (k : K) :
    Progress (t isTriv k : ParserFn K E IE) := by
  intro i i2 c h
  unfold t at h
  cases htoks : i.toks with
  | nil => rw [htoks] at h; simp at h
  | cons hd rest =>
    obtain ⟨ck, cs⟩ := hd
    rw [htoks] at h
    by_cases hk : ck = k
    · simp only [hk, if_pos rfl] at h
      cases h
      rw [Input.len_advanceTrivia]
      simp [Input.len, htoks]
      omega
    · simp only [if_neg hk] at h
      simp at h

theorem join_conserves (ps : List (ParserFn K E IE))
    (hps : ∀ p ∈ ps, Conserves p) : Conserves (join ps) := by
  induction ps with
  | nil =>
    intro i i2 c h
    unfold join at h
    cases h
    simp [Children.leaves_empty]
  | cons p rest ih =>
    intro i i2 c h
    simp only [join] at h
    cases h1 : p i with
    | ok ia ca =>
      simp only [h1] at h
      cases h2 : join rest ia with
      | ok ib cb =>
        simp only [h2] at h
        cases h
        have e1 := hps p (by simp) i ia ca h1
        have e2 := ih (fun q hq => hps q (by simp [hq])) ia _ _ h2
        rw [Children.leaves_add, List.append_assoc, e2, e1]
      | error e => simp only [h2] at h; exact (PResult.noConfusion h)
      | failure e => simp only [h2] at h; exact (PResult.noConfusion h)
    | error e => simp only [h1] at h; exact (PResult.noConfusion h)
    | failure e => simp only [h1] at h; exact (PResult.noConfusion h)

theorem many0Loop_conserves (p : ParserFn K E E) (hp : Conserves p) :
    ∀ fuel (i : Input K) (acc : Children K E),
      (many0Loop p fuel i acc).2.leaves ++ (many0Loop p fuel i acc).1.remaining =
        acc.leaves ++ i.remaining := by
  intro fuel
  induction fuel with
  | zero => intro i acc; simp [many0Loop]
  | succ f ih =>
    intro i acc
    unfold many0Loop
    split
    case h_1 i2 c h1 =>
      rw [ih i2 (acc.add c), Children.leaves_add, List.append_assoc, hp i i2 c h1]
    case h_2 => rfl
    case h_3 => rfl

theorem many0_conserves (p : ParserFn K E E) (hp : Conserves p) :
    Conserves (many0 p : ParserFn K E IE) := by
  intro i i2 c h
  unfold many0 at h
  split at h
  case h_1 ia ca h1 =>
    cases h
    exact (many0Loop_conserves p hp (ia.len + 1) ia ca).trans (hp i ia ca h1)
  case h_2 =>
    cases h
    simp [Children.leaves_empty]
  case h_3 =>
    cases h
    simp [Children.leaves_empty]

theorem fallibleWith_conserves (errK : K) (p : ParserFn K E IE) (conv : IE → E)
    (hp : Conserves p) : Conserves (fallibleWith errK p conv) := by
  intro i i2 c h
  unfold fallibleWith at h
  split at h
  case h_1 ia ca h1 =>
    cases h
    exact hp i i2 c h1
  case h_2 e h1 =>
    cases h
    simp [Children.leaves_fromErr]
  case h_3 => simp at h

theorem node_conserves (k : K) (p : ParserFn K E IE) (hp : Conserves p) :
    Conserves (node k p) := by
  intro i i2 c h
  unfold node at h
  split at h
  case h_1 ia ca h1 =>
    cases h
    rw [Children.leaves_intoNode]
    exact hp i i2 ca h1
  case h_2 => simp at h
  case h_3 => simp at h

theorem denote_conserves [DecidableEq K] [RowanNomError E] (isTriv : K → Bool)
    (errK : K) (conv : E → E) (e : PExp K) :
    Conserves (denote isTriv errK conv e) := by
  induction e with
  | tok k => exact t_conserves isTriv k
  | seq p q ihp ihq =>
    refine join_conserves _ ?_
    intro x hx
    simp [denote] at hx
    rcases hx with h | h <;> subst h
    · exact ihp
    · exact ihq
  | rep p ihp => exact many0_conserves _ ihp
  | recov p ihp => exact fallibleWith_conserves _ _ _ ihp
  | wrap k p ihp => exact node_conserves _ _ ihp

end RowanNom

namespace RowanNom

theorem runs_le (p : ParserFn K E E) (hprog : Progress p) :
    ∀ {i : Input K} {k : Nat} {i2 : Input K} {acc : Children K E},
      Runs p i k i2 acc → k ≤ i.len := by
  intro i k i2 acc h
  induction h with
  | stop _ _ => omega
  | step ia ib ic c acc2 k2 hok _ ih =>
    have := hprog ia ib c hok
    omega

theorem many0Loop_runs (p : ParserFn K E E) :
    ∀ {i : Input K} {k : Nat} {i2 : Input K} {acc : Children K E},
      Runs p i k i2 acc → ∀ fuel, k ≤ fuel → ∀ acc0 : Children K E,
        many0Loop p fuel i acc0 = (i2, acc0.add acc) := by
  intro i k i2 acc h
  induction h with
  | stop ia hstop =>
    intro fuel _ acc0
    cases fuel with
    | zero => simp [many0Loop, Children.add_empty]
    | succ f =>
      unfold many0Loop
      cases hp : p ia with
      | ok ib cb => exact absurd hp (hstop ib cb)
      | error e => simp [Children.add_empty]
      | failure e => simp [Children.add_empty]
  | step ia ib ic c acc2 k2 hok hrun ih =>
    intro fuel hf acc0
    cases fuel with
    | zero => omega
    | succ f =>
      unfold many0Loop
      simp only [hok]
      rw [ih f (by omega) (acc0.add c), Children.add_assoc]

theorem joinPlain [RowanNomError E] (ps : List (ParserFn K E E))
    (hps : ∀ p ∈ ps, ∀ i : Input K, PlainErr (p i)) :
    ∀ i : Input K, PlainErr (join ps i) := by
  induction ps with
  | nil => intro i; simp [join, PlainErr]
  | cons p rest ih =>
    intro i
    simp only [join]
    cases h1 : p i with
    | ok ia ca =>
      cases h2 : join rest ia with
      | ok ib cb => simp [h2, PlainErr]
      | error e =>
        have := ih (fun q hq => hps q (by simp [hq])) ia
        rw [h2] at this
        simp only [h2]
        simpa [PlainErr] using this
      | failure e =>
        have := ih (fun q hq => hps q (by simp [hq])) ia
        rw [h2] at this
        simp only [h2]
        simpa [PlainErr] using this
    | error e =>
      have := hps p (by simp) i
      rw [h1] at this
      simpa [PlainErr] using this
    | failure e =>
      have := hps p (by simp) i
      rw [h1] at this
      simpa [PlainErr] using this

theorem tPlain [DecidableEq K] [RowanNomError E] (isTriv : K → Bool) (k : K)
    (i : Input K) : PlainErr ((t isTriv k : ParserFn K E E) i) := by
  unfold t
  cases htoks : i.toks with
  | nil => simp [PlainErr]
  | cons hd rest =>
    obtain ⟨ck, cs⟩ := hd
    by_cases hk : ck = k
    · simp [hk, PlainErr]
    · simp [hk, PlainErr]

theorem denotePlain [DecidableEq K] [RowanNomError E] (isTriv : K → Bool)
    (errK : K) (conv : E → E) (e : PExp K) (i : Input K) :
    PlainErr (denote isTriv errK conv e i) := by
  induction e generalizing i with
  | tok k => exact tPlain isTriv k i
  | seq p q ihp ihq =>
    refine joinPlain _ ?_ i
    intro x hx
    simp [denote] at hx
    rcases hx with h | h <;> subst h
    · exact ihp
    · exact ihq
  | rep p ihp =>
    simp only [denote, many0]
    cases h1 : denote isTriv errK conv p i <;> simp [PlainErr]
  | recov p ihp =>
    simp only [denote, fallibleWith]
    cases h1 : denote isTriv errK conv p i with
    | ok ia ca => simp [PlainErr]
    | error e => simp [PlainErr]
    | failure e =>
      have := ihp i
      rw [h1] at this
      simpa [PlainErr] using this
  | wrap k p ihp =>
    simp only [denote, node]
    cases h1 : denote isTriv errK conv p i with
    | ok ia ca => simp [PlainErr]
    | error e =>
      have := ihp i
      rw [h1] at this
      simpa [PlainErr] using this
    | failure e =>
      have := ihp i
      rw [h1] at this
      simpa [PlainErr] using this

theorem dropWhile_append_of_all {α : Type} (P : α → Bool) (a b : List α)
    (ha : ∀ x ∈ a, P x = true) :
    (a ++ b).dropWhile P = b.dropWhile P := by
  induction a with
  | nil => simp
  | cons x xs ih =>
    simp only [List.cons_append, List.dropWhile_cons]
    rw [if_pos (ha x (by simp))]
    exact ih (fun y hy => ha y (by simp [hy]))

theorem nextSig_of_wf (isTriv : K → Bool) (i : Input K) (hwf : WF isTriv i) :
    nextSig isTriv i = i.toks.head?.map Prod.fst := by
  obtain ⟨h1, h2⟩ := hwf
  unfold nextSig Input.remaining
  rw [dropWhile_append_of_all _ _ _ (fun x hx => h1 x hx)]
  cases htoks : i.toks with
  | nil => simp
  | cons hd rest =>
    rw [htoks] at h2
    simp [List.dropWhile_cons, h2]

theorem failsWith_shape (ps : List (ParserFn K E IE)) (i : Input K)
    (r : PResult K E IE) (h : FailsWith ps i r) :
    (∃ e, r = PResult.error e) ∨ (∃ e, r = PResult.failure e) := by
  induction h with
  | hereE _ _ _ e _ => exact Or.inl ⟨e, rfl⟩
  | hereF _ _ _ e _ => exact Or.inr ⟨e, rfl⟩
  | later _ _ _ _ _ _ _ _ ih => exact ih

end RowanNom

open RowanNom in
/-- Claim C2 (amended): for every composition of the engine's combinators and
every successful run, the emitted tree leaves followed by the tokens still
ahead of the returned cursor are exactly the tokens (buffered trivia
included) that were ahead of the starting cursor — every pending trivia token
is re-attached at most once, in its original order, never reordered, never
duplicated, and attachment happens at the next successful significant-token
match (a failed, recovered match synthesizes a childless error node and
leaves the trivia pending; see the counterexample). -/
theorem claim_C2_trivia_conserved {K E : Type} [DecidableEq K] [RowanNomError E]
    (isTriv : K → Bool) (errK : K) (conv : E → E) (e : PExp K)
    (i i2 : Input K) (c : Children K E)
    (h : denote isTriv errK conv e i = .ok i2 c) :
    c.leaves ++ i2.remaining = i.remaining :=
  denote_conserves isTriv errK conv e i i2 c h

open RowanNom in
/-- Witness for C2, doubling as the "file starts with only comments" case:
the comment and whitespace trivia ahead of the first significant token end up
attached, in order, in front of that token. -/
theorem claim_C2_trivia_conserved_witness :
    Children.leaves (Children.fromTokens (E := String)
        [(TK.cmt, "-- c\n"), (TK.ws, " "), (TK.a, "x")]) ++
      Input.remaining (K := TK)
        { srcPos := 7, triviaToks := [], triviaLen := 0, toks := [] } =
      Input.remaining (Input.ofTokens tkTriv
        [(TK.cmt, "-- c\n"), (TK.ws, " "), (TK.a, "x")]) :=
  claim_C2_trivia_conserved tkTriv TK.err (fun e => e) (PExp.tok TK.a) _ _ _ rfl

open RowanNom in
/-- Counterexample for C2 as stated: at a failed (recovered) match the
pending trivia is **not** attached into the output tree — the synthesized
error node has no children (its leaf list is empty) and the cursor, trivia
still pending, is returned unchanged. -/
theorem claim_C2_counterexample :
    fallibleWith TK.err (t tkTriv TK.b : ParserFn TK String String) (fun e => e)
        (Input.ofTokens tkTriv [(TK.cmt, "-- c\n"), (TK.a, "x")]) =
      PResult.ok (Input.ofTokens tkTriv [(TK.cmt, "-- c\n"), (TK.a, "x")])
        { errors := ["unexpected token"], inner := [Green.node TK.err []] } ∧
    Children.leaves (K := TK) (E := String)
        { errors := ["unexpected token"], inner := [Green.node TK.err []] } = [] :=
  ⟨rfl, rfl⟩

open RowanNom in
/-- Claim C3: `recoverable` (`fallible_with`).  If `p` fails recoverably, the
combinator succeeds at the unchanged cursor with exactly one recorded
(converted) error and exactly one childless tree fragment tagged with the
designated error kind; if `p` succeeds, its result passes through
unchanged. -/
theorem claim_C3_recoverable {K E IE : Type} (errK : K) (p : ParserFn K E IE)
    (conv : IE → E) (i : Input K) :
    (∀ e, p i = .error e →
        fallibleWith errK p conv i =
          .ok i { errors := [conv e], inner := [Green.node errK []] }) ∧
    (∀ i2 c, p i = .ok i2 c → fallibleWith errK p conv i = .ok i2 c) := by
  constructor
  · intro e he
    simp only [fallibleWith, he]
    rfl
  · intro i2 c hc
    simp only [fallibleWith, hc]

open RowanNom in
/-- Witness for C3: a failing `t` wrapped in `recoverable` yields the cursor
unchanged, one error node, one recorded error. -/
theorem claim_C3_recoverable_witness :
    fallibleWith TK.err (t tkTriv TK.b : ParserFn TK String String) (fun e => e)
        (Input.ofTokens tkTriv [(TK.a, "x")]) =
      PResult.ok (Input.ofTokens tkTriv [(TK.a, "x")])
        { errors := ["unexpected token"], inner := [Green.node TK.err []] } :=
  (claim_C3_recoverable TK.err (t tkTriv TK.b) (fun e => e)
    (Input.ofTokens tkTriv [(TK.a, "x")])).1 "unexpected token" rfl

open RowanNom in
/-- Claim C4: `token(kind)` (`t`).  On a well-formed cursor it succeeds iff
the next significant token has the requested kind; on success the accumulator
is the buffered trivia run followed by that token and the cursor advances
past both; a wrong-kind significant token yields the "unexpected token"
error, end of significant input the "unexpected eof" error (the cursor seen
by the caller is unchanged on failure — the failure carries no cursor). -/
theorem claim_C4_token {K E IE : Type} [DecidableEq K] [RowanNomError IE]
    (isTriv : K → Bool) (k : K) (i : Input K) (hwf : WF isTriv i) :
    ((∃ i2 c, t isTriv k i = (PResult.ok i2 c : PResult K E IE)) ↔
        nextSig isTriv i = some k) ∧
    (∀ s rest, i.toks = (k, s) :: rest →
        t isTriv k i = (PResult.ok
          (Input.advanceTrivia isTriv
            { srcPos := i.srcPos + i.triviaLen + s.length,
              triviaToks := [], triviaLen := 0, toks := rest })
          (Children.fromTokens (i.triviaToks ++ [(k, s)])) : PResult K E IE)) ∧
    (∀ k2 s rest, i.toks = (k2, s) :: rest → k2 ≠ k →
        t isTriv k i =
          (PResult.error (RowanNomError.fromMessage "unexpected token") :
            PResult K E IE)) ∧
    (i.toks = [] →
        t isTriv k i =
          (PResult.error (RowanNomError.fromMessage "unexpected eof") :
            PResult K E IE)) := by
  have hns := nextSig_of_wf isTriv i hwf
  refine ⟨⟨?_, ?_⟩, ?_, ?_, ?_⟩
  · rintro ⟨i2, c, hok⟩
    unfold t at hok
    cases htoks : i.toks with
    | nil => rw [htoks] at hok; simp at hok
    | cons hd rest =>
      obtain ⟨ck, cs⟩ := hd
      rw [htoks] at hok
      by_cases hk : ck = k
      · rw [hns, htoks]
        simp [hk]
      · simp [hk] at hok
  · intro hsig
    rw [hns] at hsig
    cases htoks : i.toks with
    | nil => rw [htoks] at hsig; simp at hsig
    | cons hd rest =>
      obtain ⟨ck, cs⟩ := hd
      rw [htoks] at hsig
      simp at hsig
      unfold t
      rw [htoks]
      simp [hsig]
  · intro s rest htoks
    unfold t
    rw [htoks]
    simp
  · intro k2 s rest htoks hne
    unfold t
    rw [htoks]
    simp [hne]
  · intro htoks
    unfold t
    rw [htoks]

open RowanNom in
/-- Witness for C4: matching `a` after a whitespace trivia token attaches the
trivia and advances past both. -/
theorem claim_C4_token_witness :
    (t tkTriv TK.a : ParserFn TK String String)
        { srcPos := 0, triviaToks := [(TK.ws, " ")], triviaLen := 1,
          toks := [(TK.a, "x")] } =
      PResult.ok
        (Input.advanceTrivia tkTriv
          { srcPos := 0 + 1 + "x".length, triviaToks := [], triviaLen := 0,
            toks := [] })
        (Children.fromTokens ([(TK.ws, " ")] ++ [(TK.a, "x")])) :=
  (claim_C4_token tkTriv TK.a
    { srcPos := 0, triviaToks := [(TK.ws, " ")], triviaLen := 1,
      toks := [(TK.a, "x")] }
    (by constructor
        · intro x hx
          simp at hx
          subst hx
          rfl
        · simp [tkTriv])).2.1 "x" [] rfl

open RowanNom in
/-- Claim C5: `repeat0` (`many0`) never fails.  If the inner parser fails at
once, it succeeds with an empty accumulator without advancing the cursor;
with exactly `k` leading matches (and the progress requirement spec §4.2
imposes on the inner parser) it consumes exactly those `k` matches,
accumulating their outputs in order, and stops at the first failing
position. -/
theorem claim_C5_many0 {K E IE : Type} (p : ParserFn K E E) (i : Input K) :
    (stops p i → many0 p i = (PResult.ok i Children.empty : PResult K E IE)) ∧
    (Progress p → ∀ k i2 acc, Runs p i k i2 acc →
        many0 p i = (PResult.ok i2 acc : PResult K E IE)) ∧
    (Progress p → ∃ i2 c, many0 p i = (PResult.ok i2 c : PResult K E IE)) := by
  refine ⟨?_, ?_, ?_⟩
  · intro hstop
    unfold many0
    cases hp : p i with
    | ok i2 c => exact absurd hp (hstop i2 c)
    | error e => rfl
    | failure e => rfl
  · intro hprog k i2 acc hruns
    cases hruns with
    | stop _ hstop =>
      unfold many0
      cases hp : p i with
      | ok ia ca => exact absurd hp (hstop ia ca)
      | error e => rfl
      | failure e => rfl
    | step _ ib _ c acc2 k2 hok hrun =>
      unfold many0
      simp only [hok]
      rw [many0Loop_runs p hrun (ib.len + 1)
        (by have := runs_le p hprog hrun; omega) c]
  · intro _
    unfold many0
    cases hp : p i with
    | ok ia ca => exact ⟨_, _, rfl⟩
    | error e => exact ⟨i, Children.empty, rfl⟩
    | failure e => exact ⟨i, Children.empty, rfl⟩

open RowanNom in
/-- Witness for C5: three leading `a` tokens followed by a `b`;
`many0 (t a)` consumes exactly the three and stops before the `b`. -/
theorem claim_C5_many0_witness :
    many0 (t tkTriv TK.a : ParserFn TK String String)
        { srcPos := 0, triviaToks := [], triviaLen := 0,
          toks := [(TK.a, "x"), (TK.a, "y"), (TK.a, "z"), (TK.b, "w")] } =
      (PResult.ok
        { srcPos := 3, triviaToks := [], triviaLen := 0, toks := [(TK.b, "w")] }
        ((Children.fromTokens [(TK.a, "x")]).add
          ((Children.fromTokens [(TK.a, "y")]).add
            ((Children.fromTokens [(TK.a, "z")]).add Children.empty))) :
        PResult TK String String) :=
  (claim_C5_many0 (t tkTriv TK.a)
      { srcPos := 0, triviaToks := [], triviaLen := 0,
        toks := [(TK.a, "x"), (TK.a, "y"), (TK.a, "z"), (TK.b, "w")] }).2.1
    (t_progress tkTriv TK.a) 3 _ _
    (Runs.step _
      { srcPos := 1, triviaToks := [], triviaLen := 0,
        toks := [(TK.a, "y"), (TK.a, "z"), (TK.b, "w")] }
      { srcPos := 3, triviaToks := [], triviaLen := 0, toks := [(TK.b, "w")] }
      (Children.fromTokens [(TK.a, "x")]) _ 2 rfl
      (Runs.step _
        { srcPos := 2, triviaToks := [], triviaLen := 0,
          toks := [(TK.a, "z"), (TK.b, "w")] }
        { srcPos := 3, triviaToks := [], triviaLen := 0, toks := [(TK.b, "w")] }
        (Children.fromTokens [(TK.a, "y")]) _ 1 rfl
        (Runs.step _
          { srcPos := 3, triviaToks := [], triviaLen := 0, toks := [(TK.b, "w")] }
          { srcPos := 3, triviaToks := [], triviaLen := 0, toks := [(TK.b, "w")] }
          (Children.fromTokens [(TK.a, "z")]) _ 0 rfl
          (Runs.stop _ (fun i2 c h => by simp [t] at h)))))

open RowanNom in
/-- Claim C6: `sequence` (`join` over the `Joignable` tuples).  Each step runs
on the cursor produced by the previous one; the first failure aborts the
whole sequence with that step's result (the caller's cursor is untouched —
the failure carries no cursor); on success the accumulator is the ordered
concatenation of every step's accumulator, errors and children alike. -/
theorem claim_C6_sequence {K E IE : Type} :
    (∀ (ps : List (ParserFn K E IE)) (i i2 : Input K)
        (cs : List (Children K E)),
        SeqOk ps i i2 cs → join ps i = .ok i2 (concatChildren cs)) ∧
    (∀ (ps : List (ParserFn K E IE)) (i : Input K) (r : PResult K E IE),
        FailsWith ps i r → join ps i = r) := by
  constructor
  · intro ps i i2 cs h
    induction h with
    | nil ia => rfl
    | cons p ps ia ib ic c cs hok hseq ih =>
      simp only [join, hok, ih]
      rfl
  · intro ps i r h
    induction h with
    | hereE p ps ia e hok => simp only [join, hok]
    | hereF p ps ia e hok => simp only [join, hok]
    | later p ps ia ib c r hok hfail ih =>
      simp only [join, hok, ih]
      rcases failsWith_shape _ _ _ hfail with ⟨e, he⟩ | ⟨e, he⟩ <;> subst he <;> rfl

open RowanNom in
/-- Witness for C6: `join [t a, t b]` on `a b` succeeds with both
accumulators concatenated in order. -/
theorem claim_C6_sequence_witness :
    join [(t tkTriv TK.a : ParserFn TK String String), t tkTriv TK.b]
        { srcPos := 0, triviaToks := [], triviaLen := 0,
          toks := [(TK.a, "x"), (TK.b, "y")] } =
      PResult.ok { srcPos := 2, triviaToks := [], triviaLen := 0, toks := [] }
        (concatChildren
          [Children.fromTokens [(TK.a, "x")], Children.fromTokens [(TK.b, "y")]]) :=
  claim_C6_sequence.1 _ _ _ _
    (SeqOk.cons _ _ _ _ _ _ _ rfl
      (SeqOk.cons _ _ _ _ _ _ _ rfl (SeqOk.nil _)))

open RowanNom in
/-- Claim C9 (amended): every error the engine throws, across every
composition of its combinators, is built through the plain-message
constructor only — `"unexpected token"` or `"unexpected eof"` — because the
engine trait in `rowan_nom.rs` has no other constructor (the span/kind
carrying constructors exist only on the front end's error type). -/
theorem claim_C9_plain_errors {K E : Type} [DecidableEq K] [RowanNomError E]
    (isTriv : K → Bool) (errK : K) (conv : E → E) (e : PExp K) (i : Input K) :
    PlainErr (denote isTriv errK conv e i) :=
  denotePlain isTriv errK conv e i

open RowanNom in
/-- Counterexample for C9 as stated: under the front end's error type
(`lib.rs`), `t` failing on a wrong-kind significant token spanning bytes
7..9 produces the constant message "unexpected token" with the empty span
0..0 — not an error recording the offending token's span and the two
kinds. -/
theorem claim_C9_counterexample :
    (t tkTriv TK.b : ParserFn TK FrontError FrontError)
        { srcPos := 7, triviaToks := [], triviaLen := 0, toks := [(TK.a, "xy")] } =
      PResult.error (FrontError.mk (0, 0) "unexpected token" none) ∧
    7 + "xy".length = 9 ∧
    FrontError.span (FrontError.mk (0, 0) "unexpected token" none) ≠ (7, 9) :=
  ⟨rfl, rfl, by decide⟩

open RowanNom in
/-- Claim C1 (amended, engine side): if the token stream's concatenated text
is the source and a grammar built from the engine's combinators consumes the
whole stream, the finished tree's leaves concatenate back to the source
exactly. -/
theorem claim_C1_tree_lossless {K E : Type} [DecidableEq K] [RowanNomError E]
    (isTriv : K → Bool) (errK : K) (conv : E → E) (e : PExp K) (k : K)
    (toks : List (RichTok K)) (src : String) (i2 : Input K) (tree : Green K)
    (errs : List E)
    (htext : toksText toks = src)
    (hparse : rootNode k (denote isTriv errK conv e) (Input.ofTokens isTriv toks) =
        .ok i2 tree errs)
    (hall : i2.remaining = []) :
    Green.text tree = src := by
  unfold rootNode at hparse
  cases hp : denote isTriv errK conv e (Input.ofTokens isTriv toks) with
  | ok ia ca =>
    rw [hp] at hparse
    cases hparse
    have hcons := denote_conserves isTriv errK conv e _ _ _ hp
    rw [Input.remaining_ofTokens, hall, List.append_nil] at hcons
    show toksText (Green.leaves (Green.node k ca.inner)) = src
    have : Green.leaves (Green.node k ca.inner) = ca.leaves := rfl
    rw [this, hcons, htext]
  | error e2 => rw [hp] at hparse; exact (RootResult.noConfusion hparse)
  | failure e2 => rw [hp] at hparse; exact (RootResult.noConfusion hparse)

open RowanNom in
/-- Witness for C1: a token stream opening with a comment, fully consumed by
a one-token grammar under a root node, rebuilds its source text. -/
theorem claim_C1_tree_lossless_witness :
    Green.text (Green.node TK.b
      [Green.tok TK.cmt "-- c\n", Green.tok TK.a "x"]) = "-- c\nx" :=
  claim_C1_tree_lossless tkTriv TK.err (fun e : String => e) (PExp.tok TK.a)
    TK.b [(TK.cmt, "-- c\n"), (TK.a, "x")] "-- c\nx"
    { srcPos := 6, triviaToks := [], triviaLen := 0, toks := [] } _ [] rfl rfl rfl

namespace Lustrs

/-! Helper lemmas about the lexer. -/

theorem table_no_eof : ∀ e ∈ keywordTable, e.2 ≠ TokInfo.EOF := by decide

theorem lookupTable_ne_eof (s : List Char) (info : TokInfo)
    (h : lookupTable s = some info) : info ≠ TokInfo.EOF := by
  unfold lookupTable at h
  cases hf : keywordTable.find? (fun e => e.1 = s) with
  | none => rw [hf] at h; simp at h
  | some entry =>
    rw [hf] at h
    simp at h
    subst h
    exact table_no_eof entry (List.mem_of_find?_eq_some hf)

theorem matchTok_ne_eof (file : String) (ln c p : Nat) (s : List Char)
    (tk : Tok) (h : matchTok file ln c p s = some tk) :
    tk.item ≠ TokInfo.EOF := by
  simp only [matchTok] at h
  cases hlk : lookupTable s with
  | some info =>
    simp only [hlk] at h
    cases h
    exact lookupTable_ne_eof s info hlk
  | none =>
    simp only [hlk] at h
    cases hp : parseI64 s with
    | some v =>
      simp only [hp] at h
      cases h
      simp [mkTok]
    | none =>
      simp only [hp] at h
      split at h
      · cases h; simp [mkTok]
      · split at h
        · cases h; simp [mkTok]
        · simp at h

theorem lexArm_acc (file : String) (src : List Char) (total : Nat)
    (st : LexSt) (acc : List Tok) (st2 : LexSt) (acc2 : List Tok)
    (h : lexArm file src total st acc = some (st2, acc2)) :
    ∃ extra, acc2 = acc ++ extra ∧ ∀ x ∈ extra, x.item ≠ TokInfo.EOF := by
  cases hg : st.gram with
  | main =>
    simp only [lexArm, hg] at h
    split at h
    · cases h; exact ⟨[], by simp⟩
    · split at h
      · cases h; exact ⟨[], by simp⟩
      · split at h
        · cases h; exact ⟨[], by simp⟩
        · split at h
          · cases h; exact ⟨[], by simp⟩
          · split at h
            case h_1 tok hm =>
              cases h
              refine ⟨[tok], rfl, ?_⟩
              intro x hx
              simp at hx
              subst hx
              exact matchTok_ne_eof _ _ _ _ _ _ hm
            case h_2 => cases h; exact ⟨[], by simp⟩
  | str =>
    simp only [lexArm, hg] at h
    split at h
    · cases h
      refine ⟨[_], rfl, ?_⟩
      intro x hx
      simp at hx
      subst hx
      simp
    · split at h
      case h_1 ch hch =>
        split at h
        · cases h
          refine ⟨[_], rfl, ?_⟩
          intro x hx
          simp at hx
          subst hx
          simp
        · cases h
          refine ⟨[_], rfl, ?_⟩
          intro x hx
          simp at hx
          subst hx
          simp
      case h_2 => simp at h
  | comment close =>
    simp only [lexArm, hg] at h
    cases h
    exact ⟨[], by simp⟩
  | inlineComment =>
    simp only [lexArm, hg] at h
    cases h
    exact ⟨[], by simp⟩

theorem lexLoop_eof (file : String) (src : List Char) (total : Nat) :
    ∀ fuel (st : LexSt) (acc toks : List Tok),
      (∀ x ∈ acc, x.item ≠ TokInfo.EOF) →
      lexLoop file src total fuel st acc = some (.ok toks) →
      ∃ pre last, toks = pre ++ [last] ∧ last.item = TokInfo.EOF ∧
        last.span.start = last.span.endL ∧ ∀ x ∈ pre, x.item ≠ TokInfo.EOF := by
  intro fuel
  induction fuel with
  | zero => intro st acc toks _ h; simp [lexLoop] at h
  | succ f ih =>
    intro st acc toks hacc h
    unfold lexLoop at h
    split at h
    · cases harm : lexArm file src total st acc with
      | some r =>
        obtain ⟨st2, acc2⟩ := r
        rw [harm] at h
        obtain ⟨extra, he, hextra⟩ := lexArm_acc _ _ _ _ _ _ _ harm
        refine ih (lexBottom src total st2) acc2 toks ?_ h
        intro x hx
        rw [he] at hx
        rcases List.mem_append.mp hx with hx2 | hx2
        · exact hacc x hx2
        · exact hextra x hx2
      | none => rw [harm] at h; simp at h
    · split at h
      · cases h
        exact ⟨acc, eofTok file st, rfl, rfl, rfl, hacc⟩
      · cases h
        exact ⟨acc, eofTok file st, rfl, rfl, rfl, hacc⟩
      · simp at h
      · simp at h

end Lustrs

namespace Lustrs

theorem lexLoop_error (file : String) (src : List Char) (total : Nat) :
    ∀ fuel (st : LexSt) (acc : List Tok) (e : LexError),
      lexLoop file src total fuel st acc = some (.error e) →
      e = LexError.UnclosedStr ∨ e = LexError.UnclosedComment := by
  intro fuel
  induction fuel with
  | zero => intro st acc e h; simp [lexLoop] at h
  | succ f ih =>
    intro st acc e h
    unfold lexLoop at h
    split at h
    · cases harm : lexArm file src total st acc with
      | some r =>
        obtain ⟨st2, acc2⟩ := r
        rw [harm] at h
        exact ih (lexBottom src total st2) acc2 e h
      | none => rw [harm] at h; simp at h
    · split at h
      · simp at h
      · simp at h
      · injection h with h2
        injection h2 with h3
        exact Or.inr h3.symm
      · injection h with h2
        injection h2 with h3
        exact Or.inl h3.symm

end Lustrs

open Lustrs in
/-- Claim C7 (amended): whenever the scan reaches end of input (`pos` at or
past `total`) while inside a string literal it fails the whole lex with
`UnclosedStr`, and while inside a block comment with `UnclosedComment`;
those two are the only errors a lex can produce; `"hello` fails with
`UnclosedStr`, `/* open` with `UnclosedComment`, and a line comment
terminated by end of input lexes successfully.  The one exception, forced by
the counterexample: a string whose opening quote is the last byte of the
input makes the Rust code index out of bounds (a panic, modeled as `none`)
inside the string arm, before the end-of-input check is reached. -/
theorem claim_C7_unclosed :
    (∀ (file : String) (src : List Char) (total fuel : Nat) (st : LexSt)
        (acc : List Tok), ¬ st.pos < total →
        (st.gram = Grammar.str →
          lexLoop file src total (fuel + 1) st acc =
            some (.error LexError.UnclosedStr)) ∧
        (∀ ch, st.gram = Grammar.comment ch →
          lexLoop file src total (fuel + 1) st acc =
            some (.error LexError.UnclosedComment))) ∧
    (∀ (file s : String) (e : LexError), lex file s = some (.error e) →
        e = LexError.UnclosedStr ∨ e = LexError.UnclosedComment) ∧
    lex "main.lus" "\"hello" = some (.error LexError.UnclosedStr) ∧
    lex "main.lus" "/* open" = some (.error LexError.UnclosedComment) ∧
    lexItems "main.lus" "-- line comment" = some (.ok [TokInfo.EOF]) := by
  refine ⟨?_, ?_, rfl, rfl, rfl⟩
  · intro file src total fuel st acc hpos
    constructor
    · intro hg
      conv_lhs => unfold lexLoop
      rw [if_neg hpos, hg]
    · intro ch hg
      conv_lhs => unfold lexLoop
      rw [if_neg hpos, hg]
  · intro file s e h
    exact lexLoop_error file s.toList s.length _ _ _ e h

open Lustrs in
/-- Witness for C7: a scan state that has reached end of input inside a
string yields `UnclosedStr`. -/
theorem claim_C7_unclosed_witness :
    lexLoop "f" [] 5 4
        { pos := 5, stop := 5, gram := .str, line := 1, col := 0 } [] =
      some (.error LexError.UnclosedStr) :=
  ((claim_C7_unclosed.1 "f" [] 5 3
    { pos := 5, stop := 5, gram := .str, line := 1, col := 0 } []
    (by decide)).1 rfl)

open Lustrs in
/-- Counterexample for C7 as stated: lexing `"` — a source whose end of
input is reached while inside a string literal — does **not** return
`Err(UnclosedStr)`: the Rust code panics on an out-of-bounds slice
(`&self.src[str_end..str_end + 1]`, lexer.rs line 179), modeled as
`none`. -/
theorem claim_C7_counterexample :
    lex "f" "\"" = none ∧
    lex "f" "\"" ≠ some (.error LexError.UnclosedStr) :=
  ⟨rfl, fun h => nomatch h⟩

open Lustrs in
/-- Claim C8 (amended): every successful lex ends with exactly one
end-of-file token, occurring only at the end, whose span is an empty range
(start = end); for the empty input that position is offset 0 = the input
length, but in general the final scan position may exceed the input length
(see the counterexample). -/
theorem claim_C8_eof_sentinel :
    (∀ (file src : String) (toks : List Tok),
        lex file src = some (.ok toks) →
        ∃ pre last, toks = pre ++ [last] ∧ last.item = TokInfo.EOF ∧
          last.span.start = last.span.endL ∧ ∀ x ∈ pre, x.item ≠ TokInfo.EOF) ∧
    lex "main.lus" "" = some (.ok
      [{ span := { file := "main.lus",
                   start := { line := 1, col := 0, pos := 0 },
                   endL := { line := 1, col := 0, pos := 0 } },
         item := TokInfo.EOF }]) := by
  constructor
  · intro file src toks h
    exact lexLoop_eof file src.toList src.length _ _ [] toks (by simp) h
  · rfl

open Lustrs in
/-- Witness for C8 at the one-character source `"a"`. -/
theorem claim_C8_eof_sentinel_witness :
    ∃ (pre : List Tok) (last : Tok),
      ([{ span := { file := "f",
                    start := { line := 1, col := 0, pos := 0 },
                    endL := { line := 1, col := 1, pos := 1 } },
          item := TokInfo.Ident "a" },
        { span := { file := "f",
                    start := { line := 1, col := 0, pos := 2 },
                    endL := { line := 1, col := 0, pos := 2 } },
          item := TokInfo.EOF }] : List Tok) = pre ++ [last] ∧
      last.item = TokInfo.EOF ∧ last.span.start = last.span.endL ∧
      ∀ x ∈ pre, x.item ≠ TokInfo.EOF :=
  claim_C8_eof_sentinel.1 "f" "a" _ rfl

open Lustrs in
/-- Counterexample for C8 as stated: lexing `"a"` (length 1) yields an EOF
token positioned at byte offset 2, not at the input length — the final
`pos >= end` skip bumps the position past the end before the sentinel is
pushed. -/
theorem claim_C8_counterexample :
    lex "f" "a" = some (.ok
      [{ span := { file := "f",
                   start := { line := 1, col := 0, pos := 0 },
                   endL := { line := 1, col := 1, pos := 1 } },
         item := TokInfo.Ident "a" },
       { span := { file := "f",
                   start := { line := 1, col := 0, pos := 2 },
                   endL := { line := 1, col := 0, pos := 2 } },
         item := TokInfo.EOF }]) ∧
    "a".length = 1 ∧ (2 : Nat) ≠ 1 :=
  ⟨rfl, rfl, by decide⟩

open Lustrs in
/-- Counterexample for C1 as stated: already at the lexer boundary the claim
fails — lexing `"a b"` and concatenating the lexemes of every returned token
yields `"ab"`, not the original source (the whitespace produced no token). -/
theorem claim_C1_counterexample :
    lexConcat "main.lus" "a b" = some (.ok "ab") ∧ "ab" ≠ "a b" :=
  ⟨rfl, by decide⟩

namespace Lustrs

/-! Helper lemmas for claim C10: the shrinking-window scan on a signed
integer literal. -/

theorem slice_split (src : List Char) (a b c : Nat) (h1 : a ≤ b) (h2 : b ≤ c) :
    slice src a c = slice src a b ++ slice src b c := by
  unfold slice
  have hc : c - a = (b - a) + (c - b) := by omega
  rw [hc, List.take_add, List.drop_drop]
  have hab : a + (b - a) = b := by omega
  rw [hab]

theorem slice_cons_of_lt (src : List Char) (a b : Nat) (hab : a < b)
    (ha : a < src.length) :
    slice src a b = src[a] :: slice src (a + 1) b := by
  unfold slice
  rw [List.drop_eq_getElem_cons ha]
  have hb : b - a = (b - (a + 1)) + 1 := by omega
  rw [hb, List.take_succ_cons]

theorem slice_bound (src : List Char) (a b : Nat) (ch : Char)
    (rest : List Char) (h : slice src a b = ch :: rest) : a < src.length := by
  by_contra hcon
  push_neg at hcon
  have hd : src.drop a = [] := List.drop_eq_nil_of_le hcon
  unfold slice at h
  rw [hd] at h
  simp at h

theorem get_of_slice_head (src : List Char) (a b : Nat) (ch : Char)
    (rest : List Char) (h : slice src a b = ch :: rest) :
    src.get? a = some ch := by
  have ha : a < src.length := slice_bound src a b ch rest h
  have hab : a < b := by
    by_contra hcon
    push_neg at hcon
    unfold slice at h
    rw [show b - a = 0 by omega] at h
    simp at h
  rw [slice_cons_of_lt src a b hab ha] at h
  injection h with h1 _
  rw [List.get?_eq_getElem?, List.getElem?_eq_getElem ha, h1]

end Lustrs

namespace Lustrs

theorem parseI64_none_nondigit (sgn : Char) (hs : sgn = '-' ∨ sgn = '+')
    (ds2 : List Char) (ch : Char) (rest : List Char) (hch : ch.isDigit = false) :
    parseI64 (sgn :: (ds2 ++ ch :: rest)) = none := by
  rcases hs with h | h <;> subst h <;>
    simp [parseI64, List.all_append, List.all_cons, hch]

theorem all_alnum_sign_false (sgn : Char) (hs : sgn = '-' ∨ sgn = '+')
    (rest : List Char) : (sgn :: rest).all Char.isAlphanum = false := by
  rcases hs with h | h <;> subst h <;>
    simp [List.all_cons, show Char.isAlphanum '-' = false from by decide,
      show Char.isAlphanum '+' = false from by decide]

theorem table_second_not_digit :
    ∀ e ∈ keywordTable, ∀ ch, e.1.get? 1 = some ch → ch.isDigit = false := by
  decide

theorem lookupTable_digit2_none (s : List Char) (dg : Char)
    (hd : dg.isDigit = true) (hs : s.get? 1 = some dg) :
    lookupTable s = none := by
  unfold lookupTable
  rw [List.find?_eq_none.mpr]
  · rfl
  · intro e he
    simp only [decide_eq_true_eq]
    intro heq
    have := table_second_not_digit e he dg (by rw [heq]; exact hs)
    rw [this] at hd
    simp at hd

theorem matchTok_extended_none (file : String) (ln c2 p : Nat) (sgn : Char)
    (hs : sgn = '-' ∨ sgn = '+') (dg : Char) (hd : dg.isDigit = true)
    (ds2 : List Char) (ch : Char) (hch : ch.isDigit = false)
    (rest : List Char)
    (hf : f64Accepts (sgn :: dg :: (ds2 ++ ch :: rest)) = false) :
    matchTok file ln c2 p (sgn :: dg :: (ds2 ++ ch :: rest)) = none := by
  have hlk : lookupTable (sgn :: dg :: (ds2 ++ ch :: rest)) = none :=
    lookupTable_digit2_none _ dg hd (by simp)
  have hpi : parseI64 (sgn :: dg :: (ds2 ++ ch :: rest)) = none := by
    have h2 := parseI64_none_nondigit sgn hs (dg :: ds2) ch rest hch
    simpa using h2
  simp [matchTok, hlk, hpi, hf, all_alnum_sign_false sgn hs]

theorem matchTok_run (file : String) (ln c2 p : Nat) (sgn : Char) (dg : Char)
    (hd : dg.isDigit = true) (ds2 : List Char) (v : Int)
    (hi : parseI64 (sgn :: dg :: ds2) = some v) :
    matchTok file ln c2 p (sgn :: dg :: ds2) =
      some (mkTok file ln c2 p (sgn :: dg :: ds2).length (TokInfo.IConst v)) := by
  have hlk : lookupTable (sgn :: dg :: ds2) = none :=
    lookupTable_digit2_none _ dg hd (by simp)
  simp only [matchTok, hlk, hi]

theorem sign_cons_ne_specials (sgn : Char) (hs : sgn = '-' ∨ sgn = '+')
    (dg : Char) (hd : dg.isDigit = true) (rest : List Char) :
    sgn :: dg :: rest ≠ ['"'] ∧ sgn :: dg :: rest ≠ ['-', '-'] ∧
    sgn :: dg :: rest ≠ ['/', '*'] ∧ sgn :: dg :: rest ≠ ['(', '*'] := by
  refine ⟨?_, ?_, ?_, ?_⟩
  · intro h; simp at h
  · intro h
    simp at h
    rw [h.2.1] at hd
    exact absurd hd (by decide)
  · intro h
    simp at h
    rcases hs with h2 | h2 <;> rw [h2] at h <;> exact absurd h.1 (by decide)
  · intro h
    simp at h
    rcases hs with h2 | h2 <;> rw [h2] at h <;> exact absurd h.1 (by decide)

end Lustrs

namespace Lustrs

theorem c10_window_decomp (src : List Char) (p : Nat) (sgn dg : Char)
    (ds2 : List Char)
    (hw : slice src p (p + 2 + ds2.length) = sgn :: dg :: ds2)
    (hmax : ∀ ch, src.get? (p + 2 + ds2.length) = some ch → ch.isDigit = false)
    (e2 : Nat) (h1 : p + 2 + ds2.length < e2) (h2 : e2 ≤ src.length) :
    ∃ ch rest, ch.isDigit = false ∧
      slice src p e2 = sgn :: dg :: (ds2 ++ ch :: rest) := by
  have hsplit := slice_split src p (p + 2 + ds2.length) e2 (by omega) (by omega)
  have hlt : p + 2 + ds2.length < src.length := by omega
  have hcons := slice_cons_of_lt src (p + 2 + ds2.length) e2 h1 hlt
  have hget : src.get? (p + 2 + ds2.length) = some src[p + 2 + ds2.length] := by
    rw [List.get?_eq_getElem?, List.getElem?_eq_getElem hlt]
  refine ⟨src[p + 2 + ds2.length], slice src (p + 2 + ds2.length + 1) e2,
    hmax _ hget, ?_⟩
  rw [hsplit, hw, hcons]
  simp

theorem c10_arm_long (file : String) (src : List Char) (p : Nat) (sgn dg : Char)
    (ds2 : List Char) (hs : sgn = '-' ∨ sgn = '+') (hd : dg.isDigit = true)
    (hw : slice src p (p + 2 + ds2.length) = sgn :: dg :: ds2)
    (hmax : ∀ ch, src.get? (p + 2 + ds2.length) = some ch → ch.isDigit = false)
    (hf : ∀ e2, p + 2 + ds2.length < e2 → e2 ≤ src.length →
        f64Accepts (slice src p e2) = false)
    (e2 : Nat) (h1 : p + 2 + ds2.length < e2) (h2 : e2 ≤ src.length)
    (l c2 : Nat) (acc : List Tok) :
    lexArm file src src.length
        { pos := p, stop := e2, gram := .main, line := l, col := c2 } acc =
      some ({ pos := p, stop := e2 - 1, gram := .main, line := l, col := c2 },
        acc) := by
  obtain ⟨ch, rest, hch, hslice⟩ :=
    c10_window_decomp src p sgn dg ds2 hw hmax e2 h1 h2
  obtain ⟨hne1, hne2, hne3, hne4⟩ :=
    sign_cons_ne_specials sgn hs dg hd (ds2 ++ ch :: rest)
  have hmt := matchTok_extended_none file l c2 p sgn hs dg hd ds2 ch hch rest
    (by rw [← hslice]; exact hf e2 h1 h2)
  simp only [lexArm, hslice]
  rw [if_neg hne1, if_neg hne2, if_neg hne3, if_neg hne4, hmt]

theorem c10_get_p (src : List Char) (p : Nat) (sgn dg : Char) (ds2 : List Char)
    (hw : slice src p (p + 2 + ds2.length) = sgn :: dg :: ds2) :
    src.get? p = some sgn :=
  get_of_slice_head src p (p + 2 + ds2.length) sgn (dg :: ds2) hw

theorem lexLoop_succ (file : String) (src : List Char) (total : Nat)
    (fuel : Nat) (st : LexSt) (acc : List Tok) (h : st.pos < total) :
    lexLoop file src total (fuel + 1) st acc =
      match lexArm file src total st acc with
      | some (st2, acc2) =>
        lexLoop file src total fuel (lexBottom src total st2) acc2
      | none => none := by
  conv_lhs => unfold lexLoop
  rw [if_pos h]

theorem lexCol_plain (src : List Char) (total : Nat) (st : LexSt) (c : Char)
    (hlt : st.pos + 1 < total) (hget : src.get? st.pos = some c)
    (hnl : c ≠ '\n') : lexCol src total st = { st with col := st.col + 1 } := by
  unfold lexCol
  rw [if_pos hlt, hget]
  split
  case h_1 heq =>
    injection heq with heq2
    exact absurd heq2 hnl
  case h_2 => rfl

theorem c10_shrink_one (file : String) (src : List Char) (p : Nat)
    (sgn dg : Char) (ds2 : List Char) (hs : sgn = '-' ∨ sgn = '+')
    (hd : dg.isDigit = true)
    (hw : slice src p (p + 2 + ds2.length) = sgn :: dg :: ds2)
    (hmax : ∀ ch, src.get? (p + 2 + ds2.length) = some ch → ch.isDigit = false)
    (hf : ∀ e2, p + 2 + ds2.length < e2 → e2 ≤ src.length →
        f64Accepts (slice src p e2) = false)
    (e2 : Nat) (h1 : p + 2 + ds2.length < e2) (h2 : e2 ≤ src.length)
    (fuel l c2 : Nat) (acc : List Tok) :
    lexLoop file src src.length (fuel + 1)
        { pos := p, stop := e2, gram := .main, line := l, col := c2 } acc =
      lexLoop file src src.length fuel
        { pos := p, stop := e2 - 1, gram := .main, line := l, col := c2 + 1 }
        acc := by
  have hplt : p < src.length := by omega
  rw [lexLoop_succ file src src.length fuel _ acc (by simpa using hplt)]
  rw [c10_arm_long file src p sgn dg ds2 hs hd hw hmax hf e2 h1 h2 l c2 acc]
  have hsgn_ne : sgn ≠ '\n' := by
    rcases hs with h | h <;> subst h <;> decide
  have hcol := lexCol_plain src src.length
    { pos := p, stop := e2 - 1, gram := .main, line := l, col := c2 } sgn
    (by simpa using (by omega : p + 1 < src.length))
    (c10_get_p src p sgn dg ds2 hw) hsgn_ne
  have hbot : lexBottom src src.length
      { pos := p, stop := e2 - 1, gram := .main, line := l, col := c2 } =
      { pos := p, stop := e2 - 1, gram := .main, line := l, col := c2 + 1 } := by
    unfold lexBottom
    rw [hcol]
    rw [if_neg (by simp; omega)]
  exact congrArg (fun s => lexLoop file src src.length fuel s acc) hbot

end Lustrs

namespace Lustrs

theorem c10_shrink (file : String) (src : List Char) (p : Nat)
    (sgn dg : Char) (ds2 : List Char) (hs : sgn = '-' ∨ sgn = '+')
    (hd : dg.isDigit = true)
    (hw : slice src p (p + 2 + ds2.length) = sgn :: dg :: ds2)
    (hmax : ∀ ch, src.get? (p + 2 + ds2.length) = some ch → ch.isDigit = false)
    (hf : ∀ e2, p + 2 + ds2.length < e2 → e2 ≤ src.length →
        f64Accepts (slice src p e2) = false)
    (n : Nat) :
    p + 2 + ds2.length + n ≤ src.length → ∀ (fuel l c2 : Nat) (acc : List Tok),
    lexLoop file src src.length (fuel + n)
        { pos := p, stop := p + 2 + ds2.length + n, gram := .main, line := l,
          col := c2 } acc =
      lexLoop file src src.length fuel
        { pos := p, stop := p + 2 + ds2.length, gram := .main, line := l,
          col := c2 + n } acc := by
  induction n with
  | zero => intro _ fuel l c2 acc; rfl
  | succ m ih =>
    intro hn fuel l c2 acc
    have step := c10_shrink_one file src p sgn dg ds2 hs hd hw hmax hf
      (p + 2 + ds2.length + (m + 1)) (by omega) (by omega) (fuel + m) l c2 acc
    rw [show p + 2 + ds2.length + (m + 1) - 1 = p + 2 + ds2.length + m from by
      omega] at step
    refine Eq.trans step ?_
    have ihm := ih (by omega) fuel l (c2 + 1) acc
    rw [show c2 + 1 + m = c2 + (m + 1) from by omega] at ihm
    exact ihm

theorem c10_match_step (file : String) (src : List Char) (p : Nat)
    (sgn dg : Char) (ds2 : List Char) (v : Int) (hs : sgn = '-' ∨ sgn = '+')
    (hd : dg.isDigit = true)
    (hw : slice src p (p + 2 + ds2.length) = sgn :: dg :: ds2)
    (hi64 : parseI64 (sgn :: dg :: ds2) = some v) (hplt : p < src.length)
    (fuel l c2 : Nat) (acc : List Tok) :
    lexLoop file src src.length (fuel + 1)
        { pos := p, stop := p + 2 + ds2.length, gram := .main, line := l,
          col := c2 } acc =
      lexLoop file src src.length fuel
        (lexBottom src src.length
          { pos := p + 2 + ds2.length, stop := src.length, gram := .main,
            line := l, col := c2 })
        (acc ++ [mkTok file l c2 p (sgn :: dg :: ds2).length
          (TokInfo.IConst v)]) := by
  rw [lexLoop_succ file src src.length fuel _ acc (by simpa using hplt)]
  obtain ⟨hne1, hne2, hne3, hne4⟩ := sign_cons_ne_specials sgn hs dg hd ds2
  have harm : lexArm file src src.length
      { pos := p, stop := p + 2 + ds2.length, gram := .main, line := l,
        col := c2 } acc =
      some ({ pos := p + 2 + ds2.length, stop := src.length, gram := .main,
              line := l, col := c2 },
        acc ++ [mkTok file l c2 p (sgn :: dg :: ds2).length
          (TokInfo.IConst v)]) := by
    simp only [lexArm, hw]
    rw [if_neg hne1, if_neg hne2, if_neg hne3, if_neg hne4,
      matchTok_run file l c2 p sgn dg hd ds2 v hi64]
  rw [harm]

theorem lexCol_newline (src : List Char) (total : Nat) (st : LexSt)
    (hlt : st.pos + 1 < total) (hget : src.get? st.pos = some '\n') :
    lexCol src total st = { st with line := st.line + 1, col := 0 } := by
  unfold lexCol
  rw [if_pos hlt, hget]
  rfl

theorem lexCol_none (src : List Char) (total : Nat) (st : LexSt)
    (hlt : st.pos + 1 < total) (hget : src.get? st.pos = none) :
    lexCol src total st = { st with col := st.col + 1 } := by
  unfold lexCol
  rw [if_pos hlt, hget]

theorem lexCol_skip (src : List Char) (total : Nat) (st : LexSt)
    (hlt : ¬st.pos + 1 < total) : lexCol src total st = st := by
  unfold lexCol
  rw [if_neg hlt]

theorem lexBottom_of_lexCol (src : List Char) (total : Nat) (st st1 : LexSt)
    (h : lexCol src total st = st1) :
    lexBottom src total st =
      if st1.pos ≥ st1.stop then { st1 with pos := st1.pos + 1, stop := total }
      else st1 := by
  unfold lexBottom
  rw [h]

theorem c10_bottom (src : List Char) (q total l c2 : Nat) (hq : q ≤ total) :
    ∃ l2 c3,
      lexBottom src total
          { pos := q, stop := total, gram := .main, line := l, col := c2 } =
        { pos := if q < total then q else q + 1, stop := total, gram := .main,
          line := l2, col := c3 } := by
  by_cases h1 : q + 1 < total
  · cases hg : src.get? q with
    | some ch =>
      by_cases hnl : ch = '\n'
      · subst hnl
        refine ⟨l + 1, 0, ?_⟩
        rw [lexBottom_of_lexCol src total _ _
          (lexCol_newline src total _ (by simpa using h1) hg)]
        rw [if_neg (by simp; omega), if_pos (by omega : q < total)]
      · refine ⟨l, c2 + 1, ?_⟩
        rw [lexBottom_of_lexCol src total _ _
          (lexCol_plain src total _ ch (by simpa using h1) hg hnl)]
        rw [if_neg (by simp; omega), if_pos (by omega : q < total)]
    | none =>
      refine ⟨l, c2 + 1, ?_⟩
      rw [lexBottom_of_lexCol src total _ _
        (lexCol_none src total _ (by simpa using h1) hg)]
      rw [if_neg (by simp; omega), if_pos (by omega : q < total)]
  · by_cases h2 : q < total
    · refine ⟨l, c2, ?_⟩
      rw [lexBottom_of_lexCol src total _ _
        (lexCol_skip src total _ (by simpa using h1))]
      rw [if_neg (by simp; omega), if_pos h2]
    · refine ⟨l, c2, ?_⟩
      rw [lexBottom_of_lexCol src total _ _
        (lexCol_skip src total _ (by simpa using h1))]
      rw [if_pos (by simp; omega), if_neg h2]

end Lustrs

open Lustrs in
/-- Claim C10 (amended): whenever the main-state scan stands at a position
`p` whose remaining input starts with a sign (`-` or `+`) immediately
followed by a digit run, the whole signed run parses as an `i64`, and no
longer window starting at `p` is accepted as a real literal, the lexer emits
exactly one `IConst` token holding the signed value, spanning the whole run
(so no `Minus`/`Plus` token is emitted there), and resumes scanning after
the run.  The two test programs of the source behave accordingly. -/
theorem claim_C10_signed_iconst :
    (∀ (file : String) (src : List Char) (p : Nat) (sgn dg : Char)
        (ds2 : List Char) (v : Int),
      sgn = '-' ∨ sgn = '+' → dg.isDigit = true → ds2.all Char.isDigit = true →
      slice src p (p + 2 + ds2.length) = sgn :: dg :: ds2 →
      (∀ ch, src.get? (p + 2 + ds2.length) = some ch → ch.isDigit = false) →
      parseI64 (sgn :: dg :: ds2) = some v →
      (∀ e2, p + 2 + ds2.length < e2 → e2 ≤ src.length →
          f64Accepts (slice src p e2) = false) →
      p + 2 + ds2.length ≤ src.length →
      ∀ (fuel l c2 : Nat) (acc : List Tok), ∃ l2 c3,
        lexLoop file src src.length
            (fuel + (src.length - (p + 2 + ds2.length)) + 1)
            { pos := p, stop := src.length, gram := .main, line := l,
              col := c2 } acc =
          lexLoop file src src.length fuel
            { pos := if p + 2 + ds2.length < src.length then p + 2 + ds2.length
                     else p + 2 + ds2.length + 1,
              stop := src.length, gram := .main, line := l2, col := c3 }
            (acc ++ [mkTok file l (c2 + (src.length - (p + 2 + ds2.length))) p
                       (sgn :: dg :: ds2).length (TokInfo.IConst v)])) ∧
    lexItems "main.lus" "42 -12" =
      some (.ok [TokInfo.IConst 42, TokInfo.IConst (-12), TokInfo.EOF]) ∧
    lexItems "main.lus" "1-2" =
      some (.ok [TokInfo.IConst 1, TokInfo.IConst (-2), TokInfo.EOF]) := by
  refine ⟨?_, rfl, rfl⟩
  intro file src p sgn dg ds2 v hs hd hds2 hw hmax hi64 hf hle fuel l c2 acc
  have hplt : p < src.length := by omega
  have hshr := c10_shrink file src p sgn dg ds2 hs hd hw hmax hf
    (src.length - (p + 2 + ds2.length)) (by omega) (fuel + 1) l c2 acc
  rw [show p + 2 + ds2.length + (src.length - (p + 2 + ds2.length)) =
      src.length from by omega] at hshr
  have hms := c10_match_step file src p sgn dg ds2 v hs hd hw hi64 hplt
    fuel l (c2 + (src.length - (p + 2 + ds2.length))) acc
  obtain ⟨l2, c3, hb⟩ := c10_bottom src (p + 2 + ds2.length) src.length l
    (c2 + (src.length - (p + 2 + ds2.length))) (by omega)
  refine ⟨l2, c3, ?_⟩
  rw [show fuel + (src.length - (p + 2 + ds2.length)) + 1 =
      fuel + 1 + (src.length - (p + 2 + ds2.length)) from by omega]
  rw [hshr, hms, hb]

open Lustrs in
/-- Witness for C10 at `p = 1` in `"1-2"`: the signed run `-2` becomes a
single `IConst (-2)` and the scan resumes past the run. -/
theorem claim_C10_signed_iconst_witness :
    ∃ l2 c3,
      lexLoop "f" "1-2".toList 3 6
          { pos := 1, stop := 3, gram := .main, line := 1, col := 1 } [] =
        lexLoop "f" "1-2".toList 3 5
          { pos := 4, stop := 3, gram := .main, line := l2, col := c3 }
          [mkTok "f" 1 1 1 2 (TokInfo.IConst (-2))] :=
  claim_C10_signed_iconst.1 "f" "1-2".toList 1 '-' '2' [] (-2)
    (Or.inl rfl) (by decide) rfl rfl
    (by intro ch h; exact nomatch h)
    (by decide)
    (by
      intro e2 h1 h2
      rw [show (1 + 2 + ([] : List Char).length) = 3 from rfl] at h1
      rw [show ("1-2".toList.length) = 3 from rfl] at h2
      omega)
    (by decide) 5 1 1 []

open Lustrs in
/-- Counterexample for C10 as stated: in `"-12.5"` the remaining input at
position 0 starts with `-` immediately followed by digits and the signed run
`-12` parses as an `i64`, yet the lexer emits no `IConst` at all — the
longer window `-12.5` is accepted as a real literal first, producing a
single `RConst`. -/
theorem claim_C10_counterexample :
    lexItems "main.lus" "-12.5" =
      some (.ok [TokInfo.RConst "-12.5", TokInfo.EOF]) ∧
    parseI64 "-12".toList = some (-12) ∧
    ([TokInfo.RConst "-12.5", TokInfo.EOF].all
      (fun t => match t with | TokInfo.IConst _ => false | _ => true)) = true :=
  ⟨rfl, by decide, rfl⟩
